import Mathlib

/-!
# go-qproxy: obfuscation codec and inbound proxy parsers

A shallow embedding of `encrypter.go` and `proxy.go`.

* Go `byte` values are natural numbers below 256; every byte operation is written with its
  explicit reduction modulo 256.
* Go `[]byte` and `string` values are lists of bytes (`Bytes`).
* A connection (`io.ReadWriter`) is a script of the results its `Read` and `Write` calls
  will report, together with the log of the buffers handed to `Write`.
* Functions that can fail or fault return `Res`: a value, a Go `error`, or a run-time panic.
-/

set_option maxRecDepth 8192

namespace QProxy

/-! ## Bytes -/

/-- Go `[]byte` / `string`: a sequence of byte values. -/
abbrev Bytes := List Nat

/-- Well-formedness of a byte sequence: every element is a byte value. -/
def IsBytes (p : Bytes) : Prop := ∀ b ∈ p, b < 256

instance (p : Bytes) : Decidable (IsBytes p) := inferInstanceAs (Decidable (∀ b ∈ p, b < 256))

/-- Bytes of an ASCII string literal of the source. -/
def str (s : String) : Bytes := s.toList.map Char.toNat

/-- Go conversion `byte(i)` of an `int`: reduction modulo 256. -/
def byteOfInt (i : Int) : Nat := (i % 256).toNat

/-! ## encrypter.go -/

/-- The Go `int` that a 64-bit two's-complement pattern stands for: the patterns from `2^63`
on are the negative values. -/
def int64Of (x : Nat) : Int := if x < 2 ^ 63 then (x : Int) else (x : Int) - 2 ^ 64

/-- The `Encrypter` struct of `encrypter.go`, lines 6-11, without the wrapped stream `rw`:
the calls to `rw` are arguments of `Read` and `Write` below.  The seed is the `[64]byte`
array.  The offsets are Go `int`s, taken 64 bits wide: each field holds the two's-complement
pattern of the `int`, a natural below `2^64` whose value is `int64Of`; `+=` is addition
modulo `2^64` and `&` acts on the pattern (where `int` has 32 bits, read `2^32`). -/
structure Encrypter where
  seed : List Nat
  readOffset : Nat
  writeOffset : Nat
deriving DecidableEq, Repr

/-- `NewEncrypter`, `encrypter.go` lines 14-16. -/
def NewEncrypter (seed : List Nat) : Encrypter := ⟨seed, 0, 0⟩

/-- The `step` byte computed in the loop body, `encrypter.go` lines 26-30 and 44-48:
`byte(os&7 - 8)` when `os&8 == 0`, else `byte(os&7 + 1)`. -/
def stepOf (os : Nat) : Nat :=
  if os &&& 8 = 0 then byteOfInt (((os &&& 7 : Nat) : Int) - 8)
  else byteOfInt (((os &&& 7 : Nat) : Int) + 1)

/-- The loop of `Encrypter.Read`, `encrypter.go` lines 25-32, over the whole buffer `p`:
`p[i] = (^p[i] - step*seed[os&63]) & 255` with `os` counting up from `offset&63`. -/
def decryptLoop (seed : List Nat) : Nat → Bytes → Bytes
  | _, [] => []
  | os, b :: rest =>
    (byteOfInt (((b ^^^ 255 : Nat) : Int) - ((stepOf os * seed.getD (os &&& 63) 0 % 256 : Nat) : Int))
        &&& 255)
      :: decryptLoop seed (os + 1) rest

/-- The loop of `Encrypter.Write`, `encrypter.go` lines 43-50, over the whole buffer `p`:
`p[i] = ^((p[i] + step*seed[os&63]) & 255)` with `os` counting up from `offset&63`. -/
def encryptLoop (seed : List Nat) : Nat → Bytes → Bytes
  | _, [] => []
  | os, b :: rest =>
    ((((b + stepOf os * seed.getD (os &&& 63) 0 % 256) % 256) &&& 255) ^^^ 255)
      :: encryptLoop seed (os + 1) rest

/-- `Encrypter.Read`, `encrypter.go` lines 19-36.  `p` is the buffer as the underlying
`rw.Read(p)` left it and `n` the count it returned; the result is the new state and the
buffer after the call (the caller receives `n` and reads `p[:n]`).  `enc.readOffset += n`
is the wrapping addition of `int`. -/
def Encrypter.Read (enc : Encrypter) (p : Bytes) (n : Nat) : Encrypter × Bytes :=
  if n > 0 then
    ({ enc with readOffset := (enc.readOffset + n) % 2 ^ 64 },
      decryptLoop enc.seed (enc.readOffset &&& 63) p)
  else (enc, p)

/-- `Encrypter.Write`, `encrypter.go` lines 39-54.  `p` is the caller's buffer and `n` the
count the underlying `rw.Write` returned; the result is the new state and the buffer after the
in-place loop, which is what was handed to `rw.Write`.  `enc.writeOffset += n` is the
wrapping addition of `int`. -/
def Encrypter.Write (enc : Encrypter) (p : Bytes) (n : Nat) : Encrypter × Bytes :=
  ({ enc with writeOffset := (enc.writeOffset + n) % 2 ^ 64 },
    encryptLoop enc.seed (enc.writeOffset &&& 63) p)

/-- A sequence of `Write` calls, each buffer fully accepted by the underlying writer
(`n = len(p)`); the second component is the byte stream that reached the underlying writer. -/
def writeStream (enc : Encrypter) : List Bytes → Encrypter × Bytes
  | [] => (enc, [])
  | p :: ps =>
    let r := enc.Write p p.length
    let rs := writeStream r.1 ps
    (rs.1, r.2 ++ rs.2)

/-- A sequence of `Read` calls; each item is the buffer as filled by the underlying reader
and the count `n` it returned.  The second component is the concatenation of the `p[:n]`
the caller receives. -/
def readStream (enc : Encrypter) : List (Bytes × Nat) → Encrypter × Bytes
  | [] => (enc, [])
  | r :: rs =>
    let x := enc.Read r.1 r.2
    let xs := readStream x.1 rs
    (xs.1, x.2.take r.2 ++ xs.2)

/-! ### The reference transform, as the specification words it -/

/-- The specification's `step` at `s = pos mod 64`: `(s mod 8) + 1` if `(s AND 8) ≠ 0`,
otherwise the byte `(s mod 8) - 8`, one of 248..255. -/
def refStep (s : Nat) : Nat := if s &&& 8 ≠ 0 then s % 8 + 1 else 256 + s % 8 - 8

/-- The specification's `ENCODE(b) = NOT((b + step·k) mod 256)` at absolute position `pos`. -/
def refENCODE (key : List Nat) (pos b : Nat) : Nat :=
  255 - (b + refStep (pos % 64) * key.getD (pos % 64) 0) % 256

/-- The specification's `DECODE(c) = (NOT(c) - step·k) mod 256` at absolute position `pos`. -/
def refDECODE (key : List Nat) (pos c : Nat) : Nat :=
  (((255 - (c : Int)) - ((refStep (pos % 64) * key.getD (pos % 64) 0 : Nat) : Int)) % 256).toNat

/-- The reference `ENCODE` applied along a buffer whose first byte is at position `o`. -/
def encFrom (key : List Nat) : Nat → Bytes → Bytes
  | _, [] => []
  | o, b :: r => refENCODE key o b :: encFrom key (o + 1) r

/-- The reference `DECODE` applied along a buffer whose first byte is at position `o`. -/
def decFrom (key : List Nat) : Nat → Bytes → Bytes
  | _, [] => []
  | o, b :: r => refDECODE key o b :: decFrom key (o + 1) r

/-! ## Results, connections and the Go run-time checks -/

/-- Outcome of a Go function returning `(value, error)`: a value, an `error`, or a run-time
panic (index or slice bounds out of range). -/
inductive Res (α : Type) where
  | ok (v : α)
  | error (e : String)
  | panic (e : String)
deriving DecidableEq, Repr

/-- What one call of the connection's `Read(p)` does: the `data` it delivers (its count is
`n`), what it leaves in the buffer behind them (`io.Reader` may use all of `p` as scratch
space; a plain connection leaves it untouched, `scratch = []`), and the error it reports. -/
structure ReadResult where
  data : Bytes
  scratch : Bytes
  err : Option String
deriving DecidableEq, Repr

/-- An `io.ReadWriter` seen from the parser: the results of the `Read` calls still to come,
the results of the `Write` calls still to come (`none`: accepted; an exhausted script accepts),
and the buffers handed to `Write` so far, oldest first. -/
structure Conn where
  reads : List ReadResult
  writes : List (Option String)
  written : List Bytes
deriving DecidableEq, Repr

/-- A Go function body acting on the connection. -/
def Prog (α : Type) := Conn → Res α × Conn

/-- Return a value. -/
def Prog.pure {α : Type} (v : α) : Prog α := fun c => (.ok v, c)

/-- Sequencing: an error or a panic ends the function, keeping the connection as it is. -/
def Prog.bind {α β : Type} (m : Prog α) (f : α → Prog β) : Prog β := fun c =>
  match m c with
  | (.ok v, c1) => f v c1
  | (.error e, c1) => (.error e, c1)
  | (.panic e, c1) => (.panic e, c1)

instance : Monad Prog where
  pure := Prog.pure
  bind := Prog.bind

/-- The statement `return ep, err` with a non-nil error. -/
def fail {α : Type} (e : String) : Prog α := fun c => (.error e, c)

/-- A run-time panic. -/
def goPanic {α : Type} (e : String) : Prog α := fun c => (.panic e, c)

/-- The index expression `buf[i]` with Go's bounds check. -/
def idx {α : Type} (buf : List α) (i : Nat) : Prog α :=
  match buf[i]? with
  | some b => pure b
  | none => goPanic "index out of range"

/-- The slice expression `buf[lo:hi]` with Go's bounds check, for a buffer whose capacity is
its length. -/
def slice (buf : Bytes) (lo hi : Nat) : Prog Bytes :=
  if lo ≤ hi ∧ hi ≤ buf.length then pure ((buf.take hi).drop lo)
  else goPanic "slice bounds out of range"

/-- The buffer of `len` bytes, fresh from `make([]byte, len)`, after a `Read` into it. -/
def ReadResult.buffer (r : ReadResult) (len : Nat) : Bytes :=
  (r.data ++ r.scratch).take len ++ List.replicate (len - (r.data ++ r.scratch).length) 0

/-- The call `conn.Read(buf)` on a fresh buffer `buf = make([]byte, len)`: the buffer after
the call, the count `n` and the error.  One script entry is one call; a call delivers at most
`len` bytes of it.  An exhausted script reads as end of file. -/
def Conn.Read (len : Nat) : Prog (Bytes × Nat × Option String) := fun c =>
  match c.reads with
  | [] => (.ok (List.replicate len 0, 0, some "EOF"), c)
  | r :: rest => (.ok (r.buffer len, min r.data.length len, r.err), { c with reads := rest })

/-- The call `conn.Write(p)`: `p` is logged and the scripted error is returned. -/
def Conn.Write (p : Bytes) : Prog (Option String) := fun c =>
  match c.writes with
  | [] => (.ok none, { c with written := c.written ++ [p] })
  | r :: rest => (.ok r, { c with writes := rest, written := c.written ++ [p] })

/-- The connection after a `Write(p)` call. -/
def Conn.afterWrite (c : Conn) (p : Bytes) : Conn :=
  { c with writes := c.writes.tail, written := c.written ++ [p] }

/-! ## Standard-library functions used by proxy.go -/

/-- Decimal rendering of an `int`, as `%d` of `fmt` prints it. -/
def itoa (i : Int) : Bytes :=
  if i < 0 then 45 :: (Nat.toDigits 10 i.natAbs).map Char.toNat
  else (Nat.toDigits 10 i.natAbs).map Char.toNat

/-- Go `strings.Index(s, sep)` counted from position `i`: the first index of `sep`, or -1. -/
def stringsIndexFrom (sep : Bytes) : Bytes → Nat → Int
  | [], i => if sep = [] then (i : Int) else -1
  | c :: r, i => if sep.isPrefixOf (c :: r) then (i : Int) else stringsIndexFrom sep r (i + 1)

/-- Go `strings.Index(s, sep)`. -/
def stringsIndex (s sep : Bytes) : Int := stringsIndexFrom sep s 0

/-- Worker of `strings.Split` for a non-empty separator: `skip` counts the bytes of a matched
separator still to pass over, `cur` is the piece being collected. -/
def stringsSplitGo (sep : Bytes) : Bytes → Nat → Bytes → List Bytes
  | [], _, cur => [cur]
  | _ :: r, skip + 1, cur => stringsSplitGo sep r skip cur
  | c :: r, 0, cur =>
    if sep.isPrefixOf (c :: r) then cur :: stringsSplitGo sep r (sep.length - 1) []
    else stringsSplitGo sep r 0 (cur ++ [c])

/-- Go `strings.Split(s, sep)` for the non-empty separators the source passes
(`"://"` and `":"`): the pieces of `s` between the occurrences of `sep`, found left to right. -/
def stringsSplit (s sep : Bytes) : List Bytes := stringsSplitGo sep s 0 []

/-- Value of a run of decimal digits, `none` when a byte is not a digit. -/
def parseDigits : Bytes → Nat → Option Nat
  | [], acc => some acc
  | c :: r, acc => if 48 ≤ c ∧ c ≤ 57 then parseDigits r (acc * 10 + (c - 48)) else none

/-- Go `strconv.Atoi` on a 64-bit platform: an optional sign, then one or more decimal
digits; the value has to fit `int`.  `none` stands for the returned `error`. -/
def Atoi (s : Bytes) : Option Int :=
  let digits : Bytes := if s.head? = some 45 ∨ s.head? = some 43 then s.drop 1 else s
  if digits = [] then none
  else
    match parseDigits digits 0 with
    | none => none
    | some v =>
      let i : Int := if s.head? = some 45 then -(v : Int) else (v : Int)
      if -(2 : Int) ^ 63 ≤ i ∧ i < (2 : Int) ^ 63 then some i else none

/-- The part of `*http.Request` that proxy.go looks at. -/
structure Request where
  Method : Bytes
  Host : Bytes
deriving DecidableEq, Repr

/-! ## proxy.go -/

/-- The `Endpoint` struct, `proxy.go` lines 60-65. -/
structure Endpoint where
  Schema : Bytes
  Host : Bytes
  Port : Int
  req : Option Request
deriving DecidableEq, Repr

/-- `NoneEndpoint`, `proxy.go` line 68. -/
def NoneEndpoint : Endpoint := { Schema := str "none", Host := [], Port := 0, req := none }

/-- `ParseEndpoint`, `proxy.go` lines 71-93; `none` is the returned `nil`. -/
def ParseEndpoint (s : Bytes) : Option Endpoint :=
  let tmp := stringsSplit s (str "://")
  let schema := tmp.headD []
  let schema1 := if schema.length = 0 then str "none" else schema
  if tmp.length = 2 then
    let tmp2 := stringsSplit (tmp.getD 1 []) (str ":")
    let host := tmp2.headD []
    if tmp2.length = 2 then
      match Atoi (tmp2.getD 1 []) with
      | some p => some { Schema := schema1, Host := host, Port := p, req := none }
      | none => none
    else some { Schema := schema1, Host := host, Port := 0, req := none }
  else some { Schema := schema1, Host := [], Port := 0, req := none }

/-- `Endpoint.Address`, `proxy.go` lines 96-98. -/
def Endpoint.Address (ep : Endpoint) : Bytes := ep.Host ++ str ":" ++ itoa ep.Port

/-- `Endpoint.String`, `proxy.go` lines 101-106. -/
def Endpoint.String (ep : Endpoint) : Bytes :=
  if ep.Schema = str "none" then str "none://"
  else ep.Schema ++ str "://" ++ ep.Host ++ str ":" ++ itoa ep.Port

/-- The rendering `fmt.Sprintf("%d.%d.%d.%d", a, b, c, d)`, `proxy.go` lines 172 and 249. -/
def dottedQuad (a b c d : Nat) : Bytes :=
  itoa a ++ str "." ++ itoa b ++ str "." ++ itoa c ++ str "." ++ itoa d

/-- The loop that skips USERID, `proxy.go` lines 162-163:
`for ; index < n && buf[index] != 0; index++ {}`.  The first argument bounds the number of
iterations; `acceptSOCKS4` passes `n`. -/
def skipUSERID (buf : Bytes) : Nat → Nat → Prog Nat
  | 0, index => pure index
  | fuel + 1, index =>
    if index < buf.length then do
      let b ← idx buf index
      if b ≠ 0 then skipUSERID buf fuel (index + 1) else pure index
    else pure index

/-- The loop that reads the host name, `proxy.go` lines 165-170:
`for i := index; i < n; i++ { if buf[i] == 0 { host = string(buf[index:i]); break } }`.
The host stays `""` when the loop ends without a zero byte. -/
def scanHost (buf : Bytes) (index : Nat) : Nat → Nat → Prog Bytes
  | 0, _ => pure []
  | fuel + 1, i =>
    if i < buf.length then do
      let b ← idx buf i
      if b = 0 then slice buf index i
      else scanHost buf index fuel (i + 1)
    else pure []

/-- The condition of `proxy.go` line 159, evaluated left to right with short circuit:
`buf[4] == 0 && buf[5] == 0 && buf[6] == 0 && buf[7] > 0`. -/
def isSOCKS4a (buf : Bytes) : Prog Bool := do
  let b4 ← idx buf 4
  if b4 = 0 then do
    let b5 ← idx buf 5
    if b5 = 0 then do
      let b6 ← idx buf 6
      if b6 = 0 then do
        let b7 ← idx buf 7
        pure (decide (b7 > 0))
      else pure false
    else pure false
  else pure false

/-- The host-name path of `acceptSOCKS4`, `proxy.go` lines 161-170. -/
def socks4aHost (buf : Bytes) : Prog Bytes := do
  let index ← skipUSERID buf buf.length 8
  scanHost buf (index + 1) buf.length (index + 1)

/-- The bytes of a zero-terminated string: what stands before the first zero byte. -/
def untilZero : Bytes → Bytes
  | [] => []
  | b :: r => if b = 0 then [] else b :: untilZero r

/-- What follows the first zero byte; nothing when there is no zero byte. -/
def afterZero : Bytes → Bytes
  | [] => []
  | b :: r => if b = 0 then r else afterZero r

/-- The SOCKS4a host as the specification words it: past the 8 header bytes, skip the
zero-terminated USERID, then read the zero-terminated host string.  A host string whose
terminating zero is not in the buffer is not read, and the host is empty. -/
def refSocks4aHost (buf : Bytes) : Bytes :=
  if 0 ∈ afterZero (buf.drop 8) then untilZero (afterZero (buf.drop 8)) else []

/-- The dotted-quad path of `acceptSOCKS4`, `proxy.go` line 172. -/
def socks4Host (buf : Bytes) : Prog Bytes := do
  let a1 ← idx buf 4
  let a2 ← idx buf 5
  let a3 ← idx buf 6
  let a4 ← idx buf 7
  pure (dottedQuad a1 a2 a3 a4)

/-- `acceptSOCKS4`, `proxy.go` lines 154-179. -/
def acceptSOCKS4 (buf : Bytes) : Prog Endpoint := do
  let p1 ← idx buf 2
  let p2 ← idx buf 3
  let port : Int := (((p1 <<< 8) + p2 : Nat) : Int)
  let socks4a ← isSOCKS4a buf
  let host ← if socks4a then socks4aHost buf else socks4Host buf
  let r2 ← idx buf 2
  let r3 ← idx buf 3
  let r4 ← idx buf 4
  let r5 ← idx buf 5
  let r6 ← idx buf 6
  let r7 ← idx buf 7
  let werr ← Conn.Write [0, 90, r2, r3, r4, r5, r6, r7]
  match werr with
  | some e => fail e
  | none => pure { Schema := str "tcp", Host := host, Port := port, req := none }

/-- The method scan of `acceptSOCKS5`, `proxy.go` lines 224-229:
`for i := 2; i < nMethods+2 && i < n; i++ { if buf[i] == 0 { has = true; break } }`.
The first argument bounds the number of iterations; `acceptSOCKS5` passes `n`. -/
def scanMethods (buf : Bytes) (nMethods : Nat) : Nat → Nat → Prog Bool
  | 0, _ => pure false
  | fuel + 1, i =>
    if i < nMethods + 2 ∧ i < buf.length then do
      let b ← idx buf i
      if b = 0 then pure true else scanMethods buf nMethods fuel (i + 1)
    else pure false

/-- The request phase of `acceptSOCKS5`, `proxy.go` lines 238-267.  `nHost` is a `byte`, so
`5+nHost` and `5+nHost+1` are computed modulo 256. -/
def socks5Request : Prog Endpoint := do
  let (buf, _, rerr) ← Conn.Read 128
  match rerr with
  | some e => fail e
  | none =>
    let atyp ← idx buf 3
    if atyp = 1 then do
      let a1 ← idx buf 4
      let a2 ← idx buf 5
      let a3 ← idx buf 6
      let a4 ← idx buf 7
      let host := dottedQuad a1 a2 a3 a4
      let p1 ← idx buf 8
      let p2 ← idx buf 9
      let port : Int := (((p1 <<< 8) + p2 : Nat) : Int)
      let werr ← Conn.Write [5, 0, 0, 1, 0, 0, 0, 0, 0, 0]
      match werr with
      | some e => fail e
      | none => pure { Schema := str "tcp", Host := host, Port := port, req := none }
    else if atyp = 3 then do
      let nHost ← idx buf 4
      let host ← slice buf 5 ((5 + nHost) % 256)
      let p1 ← idx buf ((5 + nHost) % 256)
      let p2 ← idx buf ((5 + nHost + 1) % 256)
      let port : Int := (((p1 <<< 8) + p2 : Nat) : Int)
      let werr ← Conn.Write [5, 0, 0, 1, 0, 0, 0, 0, 0, 0]
      match werr with
      | some e => fail e
      | none => pure { Schema := str "tcp", Host := host, Port := port, req := none }
    else do
      let _ ← Conn.Write [5, 8, 0, 1, 0, 0, 0, 0, 0, 0]
      fail "address type not supported"

/-- `acceptSOCKS5`, `proxy.go` lines 220-268: the method negotiation of lines 221-237,
followed by the request phase. -/
def acceptSOCKS5 (buf : Bytes) : Prog Endpoint := do
  let nMethods ← idx buf 1
  let hasAnonymousMethod ← scanMethods buf nMethods buf.length 2
  if !hasAnonymousMethod then do
    let _ ← Conn.Write [5, 0xFF]
    fail "method not supported"
  else do
    let werr ← Conn.Write [5, 0]
    match werr with
    | some e => fail e
    | none => socks5Request

/-- `acceptHTTP`, `proxy.go` lines 316-339.  `ReadRequest` stands for
`http.ReadRequest(bufio.NewReader(io.MultiReader(bytes.NewReader(buf), conn)))` of the
standard library: it is given the bytes already read and the connection. -/
def acceptHTTP (ReadRequest : Bytes → Prog Request) (buf : Bytes) : Prog Endpoint := do
  let req ← ReadRequest buf
  if req.Method = str "CONNECT" then
    let _ ← Conn.Write (str "HTTP/1.1 200 Connection Established\r\nConnection: close\r\n\r\n")
  if stringsIndex req.Host (str ":") > 0 then do
    let arr := stringsSplit req.Host (str ":")
    let host ← idx arr 0
    let ps ← idx arr 1
    match Atoi ps with
    | none => fail "strconv.Atoi: parsing failed"
    | some port => pure { Schema := str "tcp", Host := host, Port := port, req := some req }
  else
    pure { Schema := str "tcp", Host := req.Host, Port := 80, req := some req }

/-- The connection after lines 323-325 of `acceptHTTP`: for the method CONNECT the reply
`HTTP/1.1 200 Connection Established` has been handed to `Write`, otherwise nothing has. -/
def afterConnect (req : Request) (c : Conn) : Conn :=
  if req.Method = str "CONNECT" then
    c.afterWrite (str "HTTP/1.1 200 Connection Established\r\nConnection: close\r\n\r\n")
  else c

/-- `accept`, `proxy.go` lines 108-130. -/
def accept (ReadRequest : Bytes → Prog Request) : Prog Endpoint := do
  let (buf, n, rerr) ← Conn.Read 128
  match rerr with
  | some e => fail e
  | none =>
    if n ≤ 0 then fail "request is empty"
    else do
      let b0 ← idx buf 0
      if b0 = 0x04 then do
        let s ← slice buf 0 n
        acceptSOCKS4 s
      else if b0 = 0x05 then do
        let s ← slice buf 0 n
        acceptSOCKS5 s
      else if b0 > 0x40 ∧ b0 < 0x5B then do
        let s ← slice buf 0 n
        acceptHTTP ReadRequest s
      else fail ("first byte invalid: " ++ String.singleton (Char.ofNat b0))

/-- The connector that `connect` hands over to, with its arguments.  The connectors
themselves (`net.DialTimeout` and the exchange with the gateway) are the environment. -/
inductive ConnectCall where
  | connectSOCK5 (ep gateway : Endpoint)
  | connectSOCK4 (ep gateway : Endpoint)
  | connectHTTP (ep gateway : Endpoint)
  | connectTCP (ep : Endpoint)
deriving DecidableEq, Repr

/-- `connect`, `proxy.go` lines 132-145: the `switch` on `gateway.Schema`. -/
def connect (ep gateway : Endpoint) : Res ConnectCall :=
  if gateway.Schema = str "socks5" ∨ gateway.Schema = str "socks" then
    .ok (.connectSOCK5 ep gateway)
  else if gateway.Schema = str "socks4" then .ok (.connectSOCK4 ep gateway)
  else if gateway.Schema = str "http" then .ok (.connectHTTP ep gateway)
  else if gateway.Schema = str "none" then .ok (.connectTCP ep)
  else .error "schema invalid of gateway Endpoint"

/-- How a session of `Connect` ends. -/
inductive Session where
  | acceptFailed (e : String)
  | recovered (e : String)
  | connectFailed (e : String)
  | dialFailed (call : ConnectCall) (e : String)
  | relay (call : ConnectCall) (replay : Bool)
deriving DecidableEq, Repr

/-- `Connect`, `proxy.go` lines 18-57, up to the start of the relay.  `dial` is the outcome of
running the chosen connector (`none`: connected); `gateway = none` is the `nil` pointer.
`relay call replay` records the connector that produced `dst` and whether the buffered
request is written to it first (lines 44-48). -/
def Connect (ReadRequest : Bytes → Prog Request) (dial : ConnectCall → Option String)
    (src : Conn) (gateway : Option Endpoint) : Session × Conn :=
  match accept ReadRequest src with
  | (.panic e, c) => (.recovered e, c)
  | (.error e, c) => (.acceptFailed e, c)
  | (.ok ep, c) =>
    let gateway1 := match gateway with
      | none => NoneEndpoint
      | some g => g
    match connect ep gateway1 with
    | .panic e => (.recovered e, c)
    | .error e => (.connectFailed e, c)
    | .ok call =>
      match dial call with
      | some e => (.dialFailed call e, c)
      | none =>
        (.relay call (match ep.req with
          | some r => decide (r.Method ≠ str "CONNECT")
          | none => false), c)

/-- `main` of `server/server.go`, lines 19 and 26, for one accepted connection without
password: the gateway flag goes through `ParseEndpoint` and its result is handed to
`Connect` as it is (`start`, lines 50-54). -/
def serverSession (ReadRequest : Bytes → Prog Request) (dial : ConnectCall → Option String)
    (gatewayStr : Bytes) (src : Conn) : Session × Conn :=
  Connect ReadRequest dial src (ParseEndpoint gatewayStr)

/-! ## Codec: the loops compute the reference transform -/

theorem xor_255 (b : Nat) (h : b < 256) : b ^^^ 255 = 255 - b := by
  interval_cases b <;> rfl

theorem and_255 (x : Nat) : x &&& 255 = x % 256 := Nat.and_pow_two_sub_one_eq_mod x 8

theorem and_63 (x : Nat) : x &&& 63 = x % 64 := Nat.and_pow_two_sub_one_eq_mod x 6

theorem and_7 (x : Nat) : x &&& 7 = x % 8 := Nat.and_pow_two_sub_one_eq_mod x 3

theorem and_8_mod (x : Nat) : (x % 64) &&& 8 = x &&& 8 := by
  rw [← and_63, Nat.and_assoc]; rfl

theorem stepOf_eq_refStep (os o : Nat) (h : os % 64 = o % 64) :
    stepOf os = refStep (o % 64) := by
  have h8 : os &&& 8 = (o % 64) &&& 8 := by rw [← h, and_8_mod]
  have h7 : os % 8 = o % 64 % 8 := by omega
  unfold stepOf refStep
  rw [h8, and_7]
  by_cases hc : (o % 64) &&& 8 = 0
  · simp only [hc, if_true, ne_eq, not_true_eq_false, if_false]
    unfold byteOfInt; omega
  · simp only [hc, if_false, ne_eq, not_false_eq_true, if_true]
    unfold byteOfInt; omega

theorem encryptLoop_eq (key : List Nat) (p : Bytes) :
    ∀ os o : Nat, os % 64 = o % 64 → encryptLoop key os p = encFrom key o p := by
  induction p with
  | nil => intro os o _; rfl
  | cons b r ih =>
    intro os o h
    have hr := ih (os + 1) (o + 1) (by omega)
    simp only [encryptLoop, encFrom, hr, refENCODE]
    rw [stepOf_eq_refStep os o h, and_63, h, and_255, xor_255 _ (by omega)]
    congr 2
    omega

theorem decryptLoop_eq (key : List Nat) (p : Bytes) (hp : IsBytes p) :
    ∀ os o : Nat, os % 64 = o % 64 → decryptLoop key os p = decFrom key o p := by
  induction p with
  | nil => intro os o _; rfl
  | cons b r ih =>
    intro os o h
    have hb : b < 256 := hp b (List.mem_cons_self _ _)
    have hr := ih (fun x hx => hp x (List.mem_cons_of_mem _ hx)) (os + 1) (o + 1) (by omega)
    simp only [decryptLoop, decFrom, hr, refDECODE]
    rw [stepOf_eq_refStep os o h, and_63, h, and_255, xor_255 _ hb]
    congr 1
    unfold byteOfInt
    omega

theorem refDECODE_refENCODE (key : List Nat) (pos b : Nat) (hb : b < 256) :
    refDECODE key pos (refENCODE key pos b) = b := by
  unfold refDECODE refENCODE
  generalize refStep (pos % 64) * key.getD (pos % 64) 0 = t
  omega

theorem refENCODE_lt (key : List Nat) (pos b : Nat) : refENCODE key pos b < 256 := by
  unfold refENCODE; omega

theorem encFrom_length (key : List Nat) (p : Bytes) : ∀ o, (encFrom key o p).length = p.length := by
  induction p with
  | nil => intro o; rfl
  | cons b r ih => intro o; simp [encFrom, ih]

theorem decFrom_length (key : List Nat) (p : Bytes) : ∀ o, (decFrom key o p).length = p.length := by
  induction p with
  | nil => intro o; rfl
  | cons b r ih => intro o; simp [decFrom, ih]

theorem encFrom_isBytes (key : List Nat) (p : Bytes) : ∀ o, IsBytes (encFrom key o p) := by
  induction p with
  | nil => intro o b hb; simp [encFrom] at hb
  | cons a r ih =>
    intro o b hb
    simp only [encFrom, List.mem_cons] at hb
    rcases hb with rfl | hb
    · exact refENCODE_lt key o a
    · exact ih (o + 1) b hb

theorem encFrom_append (key : List Nat) (p q : Bytes) :
    ∀ o, encFrom key o (p ++ q) = encFrom key o p ++ encFrom key (o + p.length) q := by
  induction p with
  | nil => intro o; simp [encFrom]
  | cons b r ih =>
    intro o
    have h : o + 1 + r.length = o + (r.length + 1) := by omega
    show encFrom key o (b :: (r ++ q)) = _
    simp only [List.cons_append, encFrom, ih, List.length_cons, h]

theorem decFrom_append (key : List Nat) (p q : Bytes) :
    ∀ o, decFrom key o (p ++ q) = decFrom key o p ++ decFrom key (o + p.length) q := by
  induction p with
  | nil => intro o; simp [decFrom]
  | cons b r ih =>
    intro o
    have h : o + 1 + r.length = o + (r.length + 1) := by omega
    show decFrom key o (b :: (r ++ q)) = _
    simp only [List.cons_append, decFrom, ih, List.length_cons, h]

theorem decFrom_take (key : List Nat) (p : Bytes) :
    ∀ o n, (decFrom key o p).take n = decFrom key o (p.take n) := by
  induction p with
  | nil => intro o n; simp [decFrom]
  | cons b r ih =>
    intro o n
    cases n with
    | zero => simp [decFrom]
    | succ n => simp [decFrom, ih]

theorem decFrom_encFrom (key : List Nat) (p : Bytes) (hp : IsBytes p) :
    ∀ o, decFrom key o (encFrom key o p) = p := by
  induction p with
  | nil => intro o; rfl
  | cons b r ih =>
    intro o
    have hb : b < 256 := hp b (List.mem_cons_self _ _)
    simp only [encFrom, decFrom, refDECODE_refENCODE key o b hb,
      ih (fun x hx => hp x (List.mem_cons_of_mem _ hx))]

theorem encFrom_getElem? (key : List Nat) (p : Bytes) :
    ∀ o i, (encFrom key o p)[i]? = (p[i]?).map (refENCODE key (o + i)) := by
  induction p with
  | nil => intro o i; simp [encFrom]
  | cons b r ih =>
    intro o i
    cases i with
    | zero => simp [encFrom]
    | succ i =>
      have h : o + 1 + i = o + (i + 1) := by omega
      simp only [encFrom, List.getElem?_cons_succ, ih, h]

theorem decFrom_getElem? (key : List Nat) (p : Bytes) :
    ∀ o i, (decFrom key o p)[i]? = (p[i]?).map (refDECODE key (o + i)) := by
  induction p with
  | nil => intro o i; simp [decFrom]
  | cons b r ih =>
    intro o i
    cases i with
    | zero => simp [decFrom]
    | succ i =>
      have h : o + 1 + i = o + (i + 1) := by omega
      simp only [decFrom, List.getElem?_cons_succ, ih, h]

theorem encFrom_congr (key : List Nat) (p : Bytes) :
    ∀ o1 o2 : Nat, o1 % 64 = o2 % 64 → encFrom key o1 p = encFrom key o2 p := by
  induction p with
  | nil => intro _ _ _; rfl
  | cons b r ih =>
    intro o1 o2 h
    simp only [encFrom, refENCODE, h, ih (o1 + 1) (o2 + 1) (by omega)]

theorem decFrom_congr (key : List Nat) (p : Bytes) :
    ∀ o1 o2 : Nat, o1 % 64 = o2 % 64 → decFrom key o1 p = decFrom key o2 p := by
  induction p with
  | nil => intro _ _ _; rfl
  | cons b r ih =>
    intro o1 o2 h
    simp only [decFrom, refDECODE, h, ih (o1 + 1) (o2 + 1) (by omega)]

theorem Write_eq (enc : Encrypter) (p : Bytes) (n : Nat) :
    enc.Write p n =
      ({ enc with writeOffset := (enc.writeOffset + n) % 2 ^ 64 },
        encFrom enc.seed enc.writeOffset p) := by
  unfold Encrypter.Write
  rw [encryptLoop_eq enc.seed p (enc.writeOffset &&& 63) enc.writeOffset (by rw [and_63]; omega)]

theorem Read_eq (enc : Encrypter) (p : Bytes) (n : Nat) (hp : IsBytes p) (hn : 0 < n) :
    enc.Read p n =
      ({ enc with readOffset := (enc.readOffset + n) % 2 ^ 64 },
        decFrom enc.seed enc.readOffset p) := by
  unfold Encrypter.Read
  rw [if_pos hn,
    decryptLoop_eq enc.seed p hp (enc.readOffset &&& 63) enc.readOffset (by rw [and_63]; omega)]

theorem writeStream_eq (ws : List Bytes) :
    ∀ (enc : Encrypter) (o : Nat), enc.writeOffset % 64 = o % 64 →
      (writeStream enc ws).2 = encFrom enc.seed o ws.flatten := by
  induction ws with
  | nil => intro enc o _; simp [writeStream, encFrom]
  | cons p ps ih =>
    intro enc o h
    have hnext : ((enc.writeOffset + p.length) % 2 ^ 64) % 64 = (o + p.length) % 64 := by
      omega
    simp only [writeStream, Write_eq, List.flatten_cons, encFrom_append]
    rw [ih _ (o + p.length) hnext, encFrom_congr enc.seed p enc.writeOffset o h]

theorem readStream_eq (rs : List (Bytes × Nat))
    (hrs : ∀ r ∈ rs, r.2 ≤ r.1.length ∧ IsBytes r.1) :
    ∀ (enc : Encrypter) (o : Nat), enc.readOffset % 64 = o % 64 →
      (readStream enc rs).2
        = decFrom enc.seed o (rs.map (fun r => r.1.take r.2)).flatten := by
  induction rs with
  | nil => intro enc o _; simp [readStream, decFrom]
  | cons r rs ih =>
    intro enc o h
    have hr := hrs r (List.mem_cons_self _ _)
    have ih1 := ih (fun x hx => hrs x (List.mem_cons_of_mem _ hx))
    have hlen : (r.1.take r.2).length = r.2 := by simp [hr.1]
    by_cases hn : 0 < r.2
    · have hnext : ((enc.readOffset + r.2) % 2 ^ 64) % 64 = (o + r.2) % 64 := by omega
      simp only [readStream, Read_eq enc r.1 r.2 hr.2 hn, List.map_cons, List.flatten_cons,
        decFrom_append, hlen, decFrom_take]
      rw [ih1 _ (o + r.2) hnext, decFrom_congr enc.seed _ enc.readOffset o h]
    · have h0 : r.2 = 0 := by omega
      have hread : enc.Read r.1 r.2 = (enc, r.1) := by
        unfold Encrypter.Read; rw [if_neg hn]
      simp only [readStream, hread, List.map_cons, List.flatten_cons, h0, List.take_zero,
        List.nil_append]
      exact ih1 enc o h

/-! ## Codec: the claims -/

/-- C1. Codec involution under arbitrary chunking: whatever the plaintext chunks passed to
`Write` (each fully accepted) on an `Encrypter` starting at write offset 0, and however the
underlying reader of a second `Encrypter` with the same key, starting at read offset 0,
chunks the resulting ciphertext (buffers of any size holding `n` delivered bytes, `n = 0`
included), the bytes returned by the reads, concatenated, are the plaintext. -/
theorem codec_involution_chunked (seed : List Nat) (ws : List Bytes) (rs : List (Bytes × Nat))
    (hws : ∀ p ∈ ws, IsBytes p)
    (hrs : ∀ r ∈ rs, r.2 ≤ r.1.length ∧ IsBytes r.1)
    (hwire : (rs.map (fun r => r.1.take r.2)).flatten = (writeStream (NewEncrypter seed) ws).2) :
    (readStream (NewEncrypter seed) rs).2 = ws.flatten := by
  have hB : IsBytes ws.flatten := by
    intro b hb
    obtain ⟨p, hp, hbp⟩ := List.mem_flatten.mp hb
    exact hws p hp b hbp
  rw [readStream_eq rs hrs (NewEncrypter seed) 0 rfl, hwire,
    writeStream_eq ws (NewEncrypter seed) 0 rfl]
  exact decFrom_encFrom seed ws.flatten hB 0

/-- Witness of C1: the plaintext `68 65 6C 6C 6F`, written as `68 65` then `6C 6C 6F`, and
read back in chunks of 1, 0 and 4 bytes into buffers of 4, 2 and 4 bytes. -/
theorem codec_involution_chunked_witness :
    (readStream (NewEncrypter (List.range 64))
        [([151, 0, 0, 0], 1), ([9, 9], 0), ([161, 159, 162, 160], 4)]).2
      = [0x68, 0x65, 0x6C, 0x6C, 0x6F] :=
  codec_involution_chunked (List.range 64) [[0x68, 0x65], [0x6C, 0x6C, 0x6F]]
    [([151, 0, 0, 0], 1), ([9, 9], 0), ([161, 159, 162, 160], 4)]
    (by decide) (by decide) (by decide)

/-! ## Running function bodies -/

theorem bind_apply {α β : Type} (m : Prog α) (f : α → Prog β) (c : Conn) :
    (m >>= f) c =
      match m c with
      | (.ok v, c1) => f v c1
      | (.error e, c1) => (.error e, c1)
      | (.panic e, c1) => (.panic e, c1) := rfl

theorem bind_ok {α β : Type} (m : Prog α) (f : α → Prog β) (c c1 : Conn) (v : α)
    (h : m c = (.ok v, c1)) : (m >>= f) c = f v c1 := by
  rw [bind_apply, h]

theorem pure_apply {α : Type} (v : α) (c : Conn) : (pure v : Prog α) c = (.ok v, c) := rfl

theorem fail_apply {α : Type} (e : String) (c : Conn) : (fail e : Prog α) c = (.error e, c) := rfl

theorem idx_ok {α : Type} (buf : List α) (i : Nat) (b : α) (c : Conn) (h : buf[i]? = some b) :
    idx buf i c = (.ok b, c) := by
  unfold idx; rw [h]; rfl

theorem idx_panic {α : Type} (buf : List α) (i : Nat) (c : Conn) (h : buf.length ≤ i) :
    idx buf i c = (.panic "index out of range", c) := by
  unfold idx; rw [List.getElem?_eq_none h]; rfl

theorem slice_ok (buf : Bytes) (lo hi : Nat) (c : Conn) (h1 : lo ≤ hi) (h2 : hi ≤ buf.length) :
    slice buf lo hi c = (.ok ((buf.take hi).drop lo), c) := by
  unfold slice; rw [if_pos ⟨h1, h2⟩]; rfl

theorem Write_apply (p : Bytes) (c : Conn) :
    Conn.Write p c = (.ok (c.writes.headD none), c.afterWrite p) := by
  unfold Conn.Write Conn.afterWrite
  cases hw : c.writes <;> simp

theorem Read_apply (len : Nat) (c : Conn) (r : ReadResult) (rest : List ReadResult)
    (h : c.reads = r :: rest) :
    Conn.Read len c =
      (.ok (r.buffer len, min r.data.length len, r.err), { c with reads := rest }) := by
  unfold Conn.Read; rw [h]

theorem buffer_length (r : ReadResult) (len : Nat) : (r.buffer len).length = len := by
  unfold ReadResult.buffer
  simp only [List.length_append, List.length_take, List.length_replicate]
  omega

theorem buffer_getElem? (r : ReadResult) (len i : Nat) (h1 : i < len) (h2 : i < r.data.length) :
    (r.buffer len)[i]? = r.data[i]? := by
  unfold ReadResult.buffer
  have h3 : i < ((r.data ++ r.scratch).take len).length := by
    simp only [List.length_take, List.length_append]; omega
  rw [List.getElem?_append_left h3, List.getElem?_take_of_lt h1, List.getElem?_append_left h2]

theorem buffer_take (r : ReadResult) (len k : Nat) (h1 : k ≤ len) (h2 : k ≤ r.data.length) :
    (r.buffer len).take k = r.data.take k := by
  unfold ReadResult.buffer
  have h3 : k ≤ ((r.data ++ r.scratch).take len).length := by
    simp only [List.length_take, List.length_append]; omega
  rw [List.take_append_of_le_length h3, List.take_take, Nat.min_eq_left h1,
    List.take_append_of_le_length h2]

theorem take_min_length {α : Type} (l : List α) (k : Nat) :
    l.take (min l.length k) = l.take k := by
  by_cases h : l.length ≤ k
  · rw [Nat.min_eq_left h, List.take_of_length_le h, List.take_of_length_le (Nat.le_refl _)]
  · rw [Nat.min_eq_right (by omega)]

/-! ## SOCKS5: the method scan -/

theorem scanMethods_eq (buf : Bytes) (nMethods : Nat) (c : Conn) :
    ∀ fuel i : Nat, buf.length ≤ i + fuel →
      scanMethods buf nMethods fuel i c
        = (.ok (decide (0 ∈ (buf.take (nMethods + 2)).drop i)), c) := by
  intro fuel
  induction fuel with
  | zero =>
    intro i h
    have hd : (buf.take (nMethods + 2)).drop i = [] := by
      apply List.drop_eq_nil_of_le
      simp only [List.length_take]; omega
    simp [scanMethods, hd, pure_apply]
  | succ fuel ih =>
    intro i h
    unfold scanMethods
    by_cases hc : i < nMethods + 2 ∧ i < buf.length
    · rw [if_pos hc]
      have hlt : i < (buf.take (nMethods + 2)).length := by
        simp only [List.length_take]; omega
      have hi : i < buf.length := hc.2
      have hget : buf[i]? = some buf[i] := List.getElem?_eq_getElem hi
      have hdrop : (buf.take (nMethods + 2)).drop i
          = buf[i] :: (buf.take (nMethods + 2)).drop (i + 1) := by
        rw [List.drop_eq_getElem_cons hlt, List.getElem_take]
      rw [bind_ok _ _ c c _ (idx_ok buf i _ c hget), hdrop]
      by_cases hz : buf[i] = 0
      · rw [if_pos hz, pure_apply, hz]; simp
      · rw [if_neg hz, ih (i + 1) (by omega)]
        have hz2 : ¬ (0 = buf[i]) := fun e => hz e.symm
        simp [hz2]
    · rw [if_neg hc]
      have hd : (buf.take (nMethods + 2)).drop i = [] := by
        apply List.drop_eq_nil_of_le
        simp only [List.length_take]; omega
      simp [hd, pure_apply]

theorem acceptSOCKS5_eq (v nMethods : Nat) (rest : Bytes) (c : Conn) :
    acceptSOCKS5 (v :: nMethods :: rest) c =
      if 0 ∈ rest.take nMethods then
        match c.writes.headD none with
        | none => socks5Request (c.afterWrite [5, 0])
        | some e => (.error e, c.afterWrite [5, 0])
      else (.error "method not supported", c.afterWrite [5, 0xFF]) := by
  unfold acceptSOCKS5
  rw [bind_ok _ _ c c nMethods (idx_ok _ 1 nMethods c (by simp)),
    bind_ok _ _ c c _ (scanMethods_eq _ nMethods c _ 2 (by omega))]
  have hd : ((v :: nMethods :: rest).take (nMethods + 2)).drop 2 = rest.take nMethods := by
    simp
  rw [hd]
  by_cases hm : 0 ∈ rest.take nMethods
  · simp only [hm, decide_True, Bool.not_true, if_true, Bool.false_eq_true, if_false]
    rw [bind_ok _ _ c _ _ (Write_apply _ c)]
    cases c.writes.headD none <;> rfl
  · simp only [hm, decide_False, Bool.not_false, if_true, if_false]
    rw [bind_ok _ _ c _ _ (Write_apply _ c)]
    rfl

/-! ## SOCKS5: the request phase -/

theorem idx_buffer (r : ReadResult) (len i : Nat) (c : Conn) (h : i < len) :
    idx (r.buffer len) i c = (.ok ((r.buffer len).getD i 0), c) := by
  apply idx_ok
  have hi : i < (r.buffer len).length := by rw [buffer_length]; exact h
  rw [List.getD_eq_getElem _ _ hi]
  exact List.getElem?_eq_getElem hi

theorem port_eq (p1 p2 : Nat) : (((p1 <<< 8) + p2 : Nat) : Int) = 256 * (p1 : Int) + (p2 : Int) := by
  rw [Nat.shiftLeft_eq]; push_cast; ring

theorem socks5Request_ipv4 (c : Conn) (r : ReadResult) (rest : List ReadResult)
    (hreads : c.reads = r :: rest) (herr : r.err = none)
    (hatyp : (r.buffer 128).getD 3 0 = 1) :
    socks5Request c =
      match c.writes.headD none with
      | none =>
        (.ok { Schema := str "tcp",
               Host := dottedQuad ((r.buffer 128).getD 4 0) ((r.buffer 128).getD 5 0)
                 ((r.buffer 128).getD 6 0) ((r.buffer 128).getD 7 0),
               Port := 256 * ((r.buffer 128).getD 8 0 : Int) + ((r.buffer 128).getD 9 0 : Int),
               req := none },
          Conn.afterWrite { c with reads := rest } [5, 0, 0, 1, 0, 0, 0, 0, 0, 0])
      | some e => (.error e, Conn.afterWrite { c with reads := rest } [5, 0, 0, 1, 0, 0, 0, 0, 0, 0]) := by
  unfold socks5Request
  rw [bind_ok _ _ c _ _ (Read_apply 128 c r rest hreads)]
  simp only [herr]
  rw [bind_ok _ _ _ _ _ (idx_buffer r 128 3 _ (by omega))]
  simp only [hatyp, if_true]
  rw [bind_ok _ _ _ _ _ (idx_buffer r 128 4 _ (by omega)),
    bind_ok _ _ _ _ _ (idx_buffer r 128 5 _ (by omega)),
    bind_ok _ _ _ _ _ (idx_buffer r 128 6 _ (by omega)),
    bind_ok _ _ _ _ _ (idx_buffer r 128 7 _ (by omega)),
    bind_ok _ _ _ _ _ (idx_buffer r 128 8 _ (by omega)),
    bind_ok _ _ _ _ _ (idx_buffer r 128 9 _ (by omega)),
    bind_ok _ _ _ _ _ (Write_apply _ _), port_eq]
  dsimp only
  cases c.writes.headD none <;> rfl

theorem socks5Request_domain (c : Conn) (r : ReadResult) (rest : List ReadResult)
    (hreads : c.reads = r :: rest) (herr : r.err = none)
    (hatyp : (r.buffer 128).getD 3 0 = 3) (hL : (r.buffer 128).getD 4 0 ≤ 121) :
    socks5Request c =
      match c.writes.headD none with
      | none =>
        (.ok { Schema := str "tcp",
               Host := ((r.buffer 128).take (5 + (r.buffer 128).getD 4 0)).drop 5,
               Port := 256 * ((r.buffer 128).getD (5 + (r.buffer 128).getD 4 0) 0 : Int)
                 + ((r.buffer 128).getD (5 + (r.buffer 128).getD 4 0 + 1) 0 : Int),
               req := none },
          Conn.afterWrite { c with reads := rest } [5, 0, 0, 1, 0, 0, 0, 0, 0, 0])
      | some e => (.error e, Conn.afterWrite { c with reads := rest } [5, 0, 0, 1, 0, 0, 0, 0, 0, 0]) := by
  have h1 : (5 + (r.buffer 128).getD 4 0) % 256 = 5 + (r.buffer 128).getD 4 0 := by omega
  have h2 : (5 + (r.buffer 128).getD 4 0 + 1) % 256 = 5 + (r.buffer 128).getD 4 0 + 1 := by omega
  unfold socks5Request
  rw [bind_ok _ _ c _ _ (Read_apply 128 c r rest hreads)]
  simp only [herr]
  rw [bind_ok _ _ _ _ _ (idx_buffer r 128 3 _ (by omega))]
  simp only [hatyp, if_true, OfNat.ofNat_ne_one, if_false]
  rw [bind_ok _ _ _ _ _ (idx_buffer r 128 4 _ (by omega)), h1, h2,
    bind_ok _ _ _ _ _ (slice_ok _ 5 _ _ (by omega) (by rw [buffer_length]; omega)),
    bind_ok _ _ _ _ _ (idx_buffer r 128 _ _ (by omega)),
    bind_ok _ _ _ _ _ (idx_buffer r 128 _ _ (by omega)),
    bind_ok _ _ _ _ _ (Write_apply _ _), port_eq]
  dsimp only
  cases c.writes.headD none <;> rfl

theorem socks5Request_refused (c : Conn) (r : ReadResult) (rest : List ReadResult)
    (hreads : c.reads = r :: rest) (herr : r.err = none)
    (h1 : (r.buffer 128).getD 3 0 ≠ 1) (h3 : (r.buffer 128).getD 3 0 ≠ 3) :
    socks5Request c =
      (.error "address type not supported",
        Conn.afterWrite { c with reads := rest } [5, 8, 0, 1, 0, 0, 0, 0, 0, 0]) := by
  unfold socks5Request
  rw [bind_ok _ _ c _ _ (Read_apply 128 c r rest hreads)]
  simp only [herr]
  rw [bind_ok _ _ _ _ _ (idx_buffer r 128 3 _ (by omega))]
  simp only [h1, h3, if_false]
  rw [bind_ok _ _ _ _ _ (Write_apply _ _)]
  rfl

theorem buffer_getD (r : ReadResult) (len i : Nat) (h1 : i < len) (h2 : i < r.data.length) :
    (r.buffer len).getD i 0 = r.data.getD i 0 := by
  simp only [List.getD_eq_getElem?_getD, buffer_getElem? r len i h1 h2]

/-! ## SOCKS4: the two loops and the parser -/

theorem skipUSERID_total (buf : Bytes) (c : Conn) :
    ∀ fuel index : Nat, ∃ k, skipUSERID buf fuel index c = (.ok k, c) ∧ index ≤ k := by
  intro fuel
  induction fuel with
  | zero => intro index; exact ⟨index, rfl, Nat.le_refl _⟩
  | succ fuel ih =>
    intro index
    unfold skipUSERID
    by_cases hlt : index < buf.length
    · rw [if_pos hlt, bind_ok _ _ c c _ (idx_ok buf index _ c (List.getElem?_eq_getElem hlt))]
      by_cases hz : buf[index] ≠ 0
      · rw [if_pos hz]
        obtain ⟨k, hk, hle⟩ := ih (index + 1)
        exact ⟨k, hk, by omega⟩
      · rw [if_neg hz]; exact ⟨index, rfl, Nat.le_refl _⟩
    · rw [if_neg hlt]; exact ⟨index, rfl, Nat.le_refl _⟩

theorem scanHost_total (buf : Bytes) (index : Nat) (c : Conn) :
    ∀ fuel i : Nat, index ≤ i → ∃ h, scanHost buf index fuel i c = (.ok h, c) := by
  intro fuel
  induction fuel with
  | zero => intro i _; exact ⟨[], rfl⟩
  | succ fuel ih =>
    intro i hi
    unfold scanHost
    by_cases hlt : i < buf.length
    · rw [if_pos hlt, bind_ok _ _ c c _ (idx_ok buf i _ c (List.getElem?_eq_getElem hlt))]
      by_cases hz : buf[i] = 0
      · rw [if_pos hz]
        exact ⟨_, slice_ok buf index i c hi (by omega)⟩
      · rw [if_neg hz]; exact ih (i + 1) (by omega)
    · rw [if_neg hlt]; exact ⟨[], rfl⟩

theorem socks4aHost_total (buf : Bytes) (c : Conn) :
    ∃ h, socks4aHost buf c = (.ok h, c) := by
  unfold socks4aHost
  obtain ⟨k, hk, _⟩ := skipUSERID_total buf c buf.length 8
  rw [bind_ok _ _ c c k hk]
  exact scanHost_total buf (k + 1) c buf.length (k + 1) (Nat.le_refl _)

theorem getElem?_at_length {α : Type} (pre : List α) (x : α) (rest : List α) :
    (pre ++ x :: rest)[pre.length]? = some x := by
  induction pre with
  | nil => simp
  | cons a l ih => simpa using ih

theorem skipUSERID_found (c : Conn) (post : Bytes) :
    ∀ (uid pre : Bytes) (fuel : Nat), (∀ b ∈ uid, b ≠ 0) → uid.length < fuel →
      skipUSERID (pre ++ uid ++ 0 :: post) fuel pre.length c
        = (.ok (pre.length + uid.length), c) := by
  intro uid
  induction uid with
  | nil =>
    intro pre fuel _ hf
    obtain ⟨f, rfl⟩ : ∃ f, fuel = f + 1 := ⟨fuel - 1, by simp at hf; omega⟩
    unfold skipUSERID
    have hlt : pre.length < (pre ++ [] ++ 0 :: post).length := by simp
    rw [if_pos hlt, bind_ok _ _ c c 0 (idx_ok _ _ _ c
      (by rw [List.append_nil]; exact getElem?_at_length pre 0 post))]
    simp [pure_apply]
  | cons u us ih =>
    intro pre fuel hnz hf
    obtain ⟨f, rfl⟩ : ∃ f, fuel = f + 1 := ⟨fuel - 1, by simp at hf; omega⟩
    unfold skipUSERID
    have hlt : pre.length < (pre ++ u :: us ++ 0 :: post).length := by simp
    have hu : u ≠ 0 := hnz u (List.mem_cons_self _ _)
    rw [if_pos hlt, bind_ok _ _ c c u (idx_ok _ _ _ c
      (by rw [List.append_assoc]; exact getElem?_at_length pre u _)), if_pos hu]
    have hbuf : pre ++ u :: us ++ 0 :: post = (pre ++ [u]) ++ us ++ 0 :: post := by simp
    have hlen : pre.length + 1 = (pre ++ [u]).length := by simp
    rw [hbuf, hlen, ih (pre ++ [u]) f (fun b hb => hnz b (List.mem_cons_of_mem _ hb))
      (by simp at hf; omega)]
    simp only [List.length_append, List.length_cons, List.length_nil]
    congr 2
    omega

theorem scanHost_found (c : Conn) (pre post : Bytes) :
    ∀ (h2 h1 : Bytes) (fuel : Nat), (∀ b ∈ h2, b ≠ 0) → h2.length < fuel →
      scanHost (pre ++ h1 ++ h2 ++ 0 :: post) pre.length fuel (pre.length + h1.length) c
        = (.ok (h1 ++ h2), c) := by
  intro h2
  induction h2 with
  | nil =>
    intro h1 fuel _ hf
    obtain ⟨f, rfl⟩ : ∃ f, fuel = f + 1 := ⟨fuel - 1, by simp at hf; omega⟩
    unfold scanHost
    have hlt : pre.length + h1.length < (pre ++ h1 ++ [] ++ 0 :: post).length := by simp
    have hget : (pre ++ h1 ++ [] ++ 0 :: post)[pre.length + h1.length]? = some 0 := by
      rw [List.getElem?_append_right (by simp)]; simp
    rw [if_pos hlt, bind_ok _ _ c c 0 (idx_ok _ _ _ c hget), if_pos rfl,
      slice_ok _ _ _ c (by omega) (by omega)]
    have htake : (pre ++ h1 ++ [] ++ 0 :: post).take (pre.length + h1.length) = pre ++ h1 := by
      rw [List.append_nil, List.take_append_of_le_length (by simp)]
      exact List.take_of_length_le (by simp)
    rw [htake, List.drop_left, List.append_nil]
  | cons u us ih =>
    intro h1 fuel hnz hf
    obtain ⟨f, rfl⟩ : ∃ f, fuel = f + 1 := ⟨fuel - 1, by simp at hf; omega⟩
    unfold scanHost
    have hlt : pre.length + h1.length < (pre ++ h1 ++ u :: us ++ 0 :: post).length := by
      simp
    have hu : u ≠ 0 := hnz u (List.mem_cons_self _ _)
    have hget : (pre ++ h1 ++ u :: us ++ 0 :: post)[pre.length + h1.length]? = some u := by
      rw [List.append_assoc (pre ++ h1), List.getElem?_append_right (by simp)]; simp
    rw [if_pos hlt, bind_ok _ _ c c u (idx_ok _ _ _ c hget), if_neg hu]
    have hbuf : pre ++ h1 ++ u :: us ++ 0 :: post = pre ++ (h1 ++ [u]) ++ us ++ 0 :: post := by
      simp
    have hlen : pre.length + h1.length + 1 = pre.length + (h1 ++ [u]).length := by
      simp only [List.length_append, List.length_cons, List.length_nil]; omega
    rw [hbuf, hlen, ih (h1 ++ [u]) f (fun b hb => hnz b (List.mem_cons_of_mem _ hb))
      (by simp at hf; omega)]
    simp

theorem isSOCKS4a_eq (v cmd p1 p2 a1 a2 a3 a4 : Nat) (rest : Bytes) (c : Conn) :
    isSOCKS4a (v :: cmd :: p1 :: p2 :: a1 :: a2 :: a3 :: a4 :: rest) c
      = (.ok (decide (a1 = 0 ∧ a2 = 0 ∧ a3 = 0 ∧ 0 < a4)), c) := by
  unfold isSOCKS4a
  rw [bind_ok _ _ c c a1 (idx_ok _ 4 _ c (by simp))]
  by_cases h1 : a1 = 0
  · rw [if_pos h1, bind_ok _ _ c c a2 (idx_ok _ 5 _ c (by simp))]
    by_cases h2 : a2 = 0
    · rw [if_pos h2, bind_ok _ _ c c a3 (idx_ok _ 6 _ c (by simp))]
      by_cases h3 : a3 = 0
      · rw [if_pos h3, bind_ok _ _ c c a4 (idx_ok _ 7 _ c (by simp))]
        simp [h1, h2, h3, pure_apply]
      · rw [if_neg h3]; simp [h3, pure_apply]
    · rw [if_neg h2]; simp [h2, pure_apply]
  · rw [if_neg h1]; simp [h1, pure_apply]

theorem socks4Host_eq (v cmd p1 p2 a1 a2 a3 a4 : Nat) (rest : Bytes) (c : Conn) :
    socks4Host (v :: cmd :: p1 :: p2 :: a1 :: a2 :: a3 :: a4 :: rest) c
      = (.ok (dottedQuad a1 a2 a3 a4), c) := by
  unfold socks4Host
  rw [bind_ok _ _ c c a1 (idx_ok _ 4 _ c (by simp)),
    bind_ok _ _ c c a2 (idx_ok _ 5 _ c (by simp)),
    bind_ok _ _ c c a3 (idx_ok _ 6 _ c (by simp)),
    bind_ok _ _ c c a4 (idx_ok _ 7 _ c (by simp))]
  rfl

theorem acceptSOCKS4_of_host (v cmd p1 p2 a1 a2 a3 a4 : Nat) (rest : Bytes) (c : Conn)
    (host : Bytes)
    (hh : (if decide (a1 = 0 ∧ a2 = 0 ∧ a3 = 0 ∧ 0 < a4) = true
            then socks4aHost (v :: cmd :: p1 :: p2 :: a1 :: a2 :: a3 :: a4 :: rest)
            else socks4Host (v :: cmd :: p1 :: p2 :: a1 :: a2 :: a3 :: a4 :: rest)) c
          = (.ok host, c)) :
    acceptSOCKS4 (v :: cmd :: p1 :: p2 :: a1 :: a2 :: a3 :: a4 :: rest) c =
      match c.writes.headD none with
      | none =>
        (.ok { Schema := str "tcp", Host := host, Port := 256 * (p1 : Int) + (p2 : Int),
               req := none },
          c.afterWrite [0, 90, p1, p2, a1, a2, a3, a4])
      | some e => (.error e, c.afterWrite [0, 90, p1, p2, a1, a2, a3, a4]) := by
  unfold acceptSOCKS4
  rw [bind_ok _ _ c c p1 (idx_ok _ 2 _ c (by simp)),
    bind_ok _ _ c c p2 (idx_ok _ 3 _ c (by simp)),
    bind_ok _ _ c c _ (isSOCKS4a_eq v cmd p1 p2 a1 a2 a3 a4 rest c)]
  have tail : ∀ h : Bytes,
      (do
        let r2 ← idx (v :: cmd :: p1 :: p2 :: a1 :: a2 :: a3 :: a4 :: rest) 2
        let r3 ← idx (v :: cmd :: p1 :: p2 :: a1 :: a2 :: a3 :: a4 :: rest) 3
        let r4 ← idx (v :: cmd :: p1 :: p2 :: a1 :: a2 :: a3 :: a4 :: rest) 4
        let r5 ← idx (v :: cmd :: p1 :: p2 :: a1 :: a2 :: a3 :: a4 :: rest) 5
        let r6 ← idx (v :: cmd :: p1 :: p2 :: a1 :: a2 :: a3 :: a4 :: rest) 6
        let r7 ← idx (v :: cmd :: p1 :: p2 :: a1 :: a2 :: a3 :: a4 :: rest) 7
        let werr ← Conn.Write [0, 90, r2, r3, r4, r5, r6, r7]
        match werr with
          | some e => fail e
          | none => (pure { Schema := str "tcp", Host := h,
                            Port := (((p1 <<< 8) + p2 : Nat) : Int), req := none } :
                      Prog Endpoint)) c
        = match c.writes.headD none with
          | none =>
            (.ok { Schema := str "tcp", Host := h, Port := 256 * (p1 : Int) + (p2 : Int),
                   req := none },
              c.afterWrite [0, 90, p1, p2, a1, a2, a3, a4])
          | some e => (.error e, c.afterWrite [0, 90, p1, p2, a1, a2, a3, a4]) := by
    intro h
    rw [bind_ok _ _ c c p1 (idx_ok _ 2 _ c (by simp)),
      bind_ok _ _ c c p2 (idx_ok _ 3 _ c (by simp)),
      bind_ok _ _ c c a1 (idx_ok _ 4 _ c (by simp)),
      bind_ok _ _ c c a2 (idx_ok _ 5 _ c (by simp)),
      bind_ok _ _ c c a3 (idx_ok _ 6 _ c (by simp)),
      bind_ok _ _ c c a4 (idx_ok _ 7 _ c (by simp)),
      bind_ok _ _ c _ _ (Write_apply _ c), port_eq]
    cases c.writes.headD none <;> rfl
  by_cases ht : a1 = 0 ∧ a2 = 0 ∧ a3 = 0 ∧ 0 < a4
  · rw [decide_eq_true ht, if_pos rfl] at hh ⊢
    rw [bind_ok _ _ c c host hh]
    exact tail host
  · rw [decide_eq_false ht, if_neg Bool.false_ne_true] at hh ⊢
    rw [bind_ok _ _ c c host hh]
    exact tail host

/-! ### The iteration bounds passed by the parsers are enough -/

theorem skipUSERID_fuel (buf : Bytes) (c : Conn) :
    ∀ f1 f2 index : Nat, buf.length - index ≤ f1 → buf.length - index ≤ f2 →
      skipUSERID buf f1 index c = skipUSERID buf f2 index c := by
  intro f1
  induction f1 with
  | zero =>
    intro f2 index h1 _
    cases f2 with
    | zero => rfl
    | succ j =>
      have hge : ¬ index < buf.length := by omega
      simp only [skipUSERID, hge, if_false]
  | succ k ih =>
    intro f2 index h1 h2
    cases f2 with
    | zero =>
      have hge : ¬ index < buf.length := by omega
      simp only [skipUSERID, hge, if_false]
    | succ j =>
      unfold skipUSERID
      by_cases hlt : index < buf.length
      · rw [if_pos hlt, if_pos hlt,
          bind_ok _ _ c c _ (idx_ok buf index _ c (List.getElem?_eq_getElem hlt)),
          bind_ok _ _ c c _ (idx_ok buf index _ c (List.getElem?_eq_getElem hlt))]
        by_cases hz : buf[index] ≠ 0
        · rw [if_pos hz, if_pos hz]
          exact ih j (index + 1) (by omega) (by omega)
        · rw [if_neg hz, if_neg hz]
      · rw [if_neg hlt, if_neg hlt]

theorem scanHost_fuel (buf : Bytes) (index : Nat) (c : Conn) :
    ∀ f1 f2 i : Nat, buf.length - i ≤ f1 → buf.length - i ≤ f2 →
      scanHost buf index f1 i c = scanHost buf index f2 i c := by
  intro f1
  induction f1 with
  | zero =>
    intro f2 i h1 _
    cases f2 with
    | zero => rfl
    | succ j =>
      have hge : ¬ i < buf.length := by omega
      simp only [scanHost, hge, if_false]
  | succ k ih =>
    intro f2 i h1 h2
    cases f2 with
    | zero =>
      have hge : ¬ i < buf.length := by omega
      simp only [scanHost, hge, if_false]
    | succ j =>
      unfold scanHost
      by_cases hlt : i < buf.length
      · rw [if_pos hlt, if_pos hlt,
          bind_ok _ _ c c _ (idx_ok buf i _ c (List.getElem?_eq_getElem hlt)),
          bind_ok _ _ c c _ (idx_ok buf i _ c (List.getElem?_eq_getElem hlt))]
        by_cases hz : buf[i] = 0
        · rw [if_pos hz, if_pos hz]
        · rw [if_neg hz, if_neg hz]
          exact ih j (i + 1) (by omega) (by omega)
      · rw [if_neg hlt, if_neg hlt]

/-! ## What a successful return implies -/

theorem bind_ok_inv {α β : Type} (m : Prog α) (f : α → Prog β) (c c2 : Conn) (v : β)
    (h : (m >>= f) c = (.ok v, c2)) :
    ∃ a c1, m c = (.ok a, c1) ∧ f a c1 = (.ok v, c2) := by
  rw [bind_apply] at h
  rcases hm : m c with ⟨r, c1⟩
  rw [hm] at h
  cases r with
  | ok a => exact ⟨a, c1, rfl, h⟩
  | error e => simp at h
  | panic e => simp at h

theorem idx_ok_inv {α : Type} (buf : List α) (i : Nat) (c c1 : Conn) (b : α)
    (h : idx buf i c = (.ok b, c1)) : buf[i]? = some b ∧ c1 = c := by
  unfold idx at h
  cases hb : buf[i]? with
  | none => rw [hb] at h; simp [goPanic] at h
  | some x =>
    rw [hb] at h
    simp only [pure_apply, Prod.mk.injEq, Res.ok.injEq] at h
    exact ⟨by rw [h.1], h.2.symm⟩

theorem acceptSOCKS4_ok_length (buf : Bytes) (c c2 : Conn) (ep : Endpoint)
    (h : acceptSOCKS4 buf c = (.ok ep, c2)) : 8 ≤ buf.length := by
  unfold acceptSOCKS4 at h
  obtain ⟨p1, c1, _, h⟩ := bind_ok_inv _ _ _ _ _ h
  obtain ⟨p2, c1, _, h⟩ := bind_ok_inv _ _ _ _ _ h
  obtain ⟨s4a, c1, _, h⟩ := bind_ok_inv _ _ _ _ _ h
  have key : ∀ (m : Prog Bytes) (c1 : Conn),
      (m >>= fun host => do
        let r2 ← idx buf 2
        let r3 ← idx buf 3
        let r4 ← idx buf 4
        let r5 ← idx buf 5
        let r6 ← idx buf 6
        let r7 ← idx buf 7
        let werr ← Conn.Write [0, 90, r2, r3, r4, r5, r6, r7]
        match werr with
          | some e => fail e
          | none => (pure { Schema := str "tcp", Host := host,
                            Port := (((p1 <<< 8) + p2 : Nat) : Int), req := none } :
                      Prog Endpoint)) c1 = (.ok ep, c2) → 8 ≤ buf.length := by
    intro m c1 h
    obtain ⟨host, c1, _, h⟩ := bind_ok_inv _ _ _ _ _ h
    obtain ⟨r2, c1, _, h⟩ := bind_ok_inv _ _ _ _ _ h
    obtain ⟨r3, c1, _, h⟩ := bind_ok_inv _ _ _ _ _ h
    obtain ⟨r4, c1, _, h⟩ := bind_ok_inv _ _ _ _ _ h
    obtain ⟨r5, c1, _, h⟩ := bind_ok_inv _ _ _ _ _ h
    obtain ⟨r6, c1, _, h⟩ := bind_ok_inv _ _ _ _ _ h
    obtain ⟨r7, c1, h7, h⟩ := bind_ok_inv _ _ _ _ _ h
    have h7b := (idx_ok_inv _ _ _ _ _ h7).1
    by_contra hlt
    rw [List.getElem?_eq_none (by omega)] at h7b
    simp at h7b
  by_cases hs : s4a = true
  · rw [if_pos hs] at h; exact key _ _ h
  · rw [if_neg hs] at h; exact key _ _ h

theorem exists_eight (buf : Bytes) (h : 8 ≤ buf.length) :
    ∃ v cmd p1 p2 a1 a2 a3 a4 more,
      buf = v :: cmd :: p1 :: p2 :: a1 :: a2 :: a3 :: a4 :: more := by
  rcases buf with _ | ⟨v, _ | ⟨cmd, _ | ⟨p1, _ | ⟨p2, _ | ⟨a1, _ | ⟨a2, _ | ⟨a3, _ | ⟨a4, more⟩⟩⟩⟩⟩⟩⟩⟩
  all_goals first
    | exact ⟨_, _, _, _, _, _, _, _, _, rfl⟩
    | (simp at h; try omega)

theorem dottedQuad_ne_nil (a b c d : Nat) : dottedQuad a b c d ≠ [] := by
  intro h
  have hl := congrArg List.length h
  simp [dottedQuad, str] at hl

theorem socks5Request_ok_inv (c c2 : Conn) (ep : Endpoint)
    (h : socks5Request c = (.ok ep, c2)) :
    ep.Schema = str "tcp" ∧ 0 ≤ ep.Port ∧
      (∀ r rest, c.reads = r :: rest → (r.buffer 128).getD 3 0 = 1 → ep.Host ≠ []) := by
  cases hreads : c.reads with
  | nil =>
    unfold socks5Request at h
    have hr : Conn.Read 128 c = (.ok (List.replicate 128 0, 0, some "EOF"), c) := by
      unfold Conn.Read; rw [hreads]
    rw [bind_ok _ _ c _ _ hr] at h
    simp [fail_apply] at h
  | cons r rest =>
    cases herr : r.err with
    | some e =>
      unfold socks5Request at h
      rw [bind_ok _ _ c _ _ (Read_apply 128 c r rest hreads)] at h
      simp [herr, fail_apply] at h
    | none =>
      by_cases h1 : (r.buffer 128).getD 3 0 = 1
      · rw [socks5Request_ipv4 c r rest hreads herr h1] at h
        cases hw : c.writes.headD none with
        | some e => rw [hw] at h; simp at h
        | none =>
          rw [hw] at h
          simp only [Prod.mk.injEq, Res.ok.injEq] at h
          rw [← h.1]
          refine ⟨rfl, by positivity, ?_⟩
          intro _ _ _ _
          exact dottedQuad_ne_nil _ _ _ _
      · by_cases h3 : (r.buffer 128).getD 3 0 = 3
        · unfold socks5Request at h
          rw [bind_ok _ _ c _ _ (Read_apply 128 c r rest hreads)] at h
          simp only [herr] at h
          rw [bind_ok _ _ _ _ _ (idx_buffer r 128 3 _ (by omega))] at h
          simp only [h3, if_true, OfNat.ofNat_ne_one, if_false] at h
          obtain ⟨nHost, c1, _, h⟩ := bind_ok_inv _ _ _ _ _ h
          obtain ⟨host, c1, _, h⟩ := bind_ok_inv _ _ _ _ _ h
          obtain ⟨p1, c1, _, h⟩ := bind_ok_inv _ _ _ _ _ h
          obtain ⟨p2, c1, _, h⟩ := bind_ok_inv _ _ _ _ _ h
          obtain ⟨werr, c1, _, h⟩ := bind_ok_inv _ _ _ _ _ h
          cases werr with
          | some e => simp [fail_apply] at h
          | none =>
            simp only [pure_apply, Prod.mk.injEq, Res.ok.injEq] at h
            rw [← h.1]
            refine ⟨rfl, Int.natCast_nonneg _, ?_⟩
            intro r2 rest2 hr2 hat
            simp only [List.cons.injEq] at hr2
            rw [← hr2.1] at hat
            exact absurd hat h1
        · rw [socks5Request_refused c r rest hreads herr h1 h3] at h
          simp at h

theorem acceptSOCKS5_ok_inv (buf : Bytes) (c c2 : Conn) (ep : Endpoint)
    (h : acceptSOCKS5 buf c = (.ok ep, c2)) :
    ep.Schema = str "tcp" ∧ 0 ≤ ep.Port ∧
      (∀ r rest, c.reads = r :: rest → (r.buffer 128).getD 3 0 = 1 → ep.Host ≠ []) := by
  rcases buf with _ | ⟨v, _ | ⟨nMethods, methods⟩⟩
  · unfold acceptSOCKS5 at h
    obtain ⟨_, _, h1, _⟩ := bind_ok_inv _ _ _ _ _ h
    have := (idx_ok_inv _ _ _ _ _ h1).1
    simp at this
  · unfold acceptSOCKS5 at h
    obtain ⟨_, _, h1, _⟩ := bind_ok_inv _ _ _ _ _ h
    have := (idx_ok_inv _ _ _ _ _ h1).1
    simp at this
  · rw [acceptSOCKS5_eq] at h
    by_cases hm : 0 ∈ methods.take nMethods
    · rw [if_pos hm] at h
      cases hw : c.writes.headD none with
      | some e => rw [hw] at h; simp at h
      | none =>
        rw [hw] at h
        exact socks5Request_ok_inv (c.afterWrite [5, 0]) c2 ep h
    · rw [if_neg hm] at h
      simp at h

/-- C3. The codec equals the reference transform: at every index `i` of the buffer, `Write`
hands `NOT((p[i] + step*key[s]) mod 256)` to the underlying writer and, among the `n` bytes
it returns, `Read` yields `(NOT(c[i]) - step*key[s]) mod 256`, with `s = (o+i) mod 64` and
the `step` of the specification; two calls at positions congruent modulo 64 transform equal
bytes to equal bytes. -/
theorem codec_eq_reference (enc : Encrypter) (p : Bytes) (n i : Nat)
    (hp : IsBytes p) (hi : i < p.length) :
    (enc.Write p n).2[i]? = some (refENCODE enc.seed (enc.writeOffset + i) (p.getD i 0)) ∧
    (i < n →
      (enc.Read p n).2[i]? = some (refDECODE enc.seed (enc.readOffset + i) (p.getD i 0))) ∧
    (∀ (enc2 : Encrypter) (p2 : Bytes) (n2 i2 : Nat),
      enc2.seed = enc.seed → IsBytes p2 → i2 < p2.length → p2.getD i2 0 = p.getD i 0 →
      ((enc2.writeOffset + i2) % 64 = (enc.writeOffset + i) % 64 →
        (enc2.Write p2 n2).2[i2]? = (enc.Write p n).2[i]?) ∧
      ((enc2.readOffset + i2) % 64 = (enc.readOffset + i) % 64 → i < n → i2 < n2 →
        (enc2.Read p2 n2).2[i2]? = (enc.Read p n).2[i]?)) := by
  have hW : ∀ (e : Encrypter) (q : Bytes) (m j : Nat), j < q.length →
      (e.Write q m).2[j]? = some (refENCODE e.seed (e.writeOffset + j) (q.getD j 0)) := by
    intro e q m j hj
    rw [Write_eq, encFrom_getElem?, List.getElem?_eq_getElem hj, List.getD_eq_getElem _ _ hj]
    rfl
  have hR : ∀ (e : Encrypter) (q : Bytes) (m j : Nat), IsBytes q → j < q.length → j < m →
      (e.Read q m).2[j]? = some (refDECODE e.seed (e.readOffset + j) (q.getD j 0)) := by
    intro e q m j hq hj hjm
    rw [Read_eq e q m hq (by omega), decFrom_getElem?, List.getElem?_eq_getElem hj,
      List.getD_eq_getElem _ _ hj]
    rfl
  refine ⟨hW enc p n i hi, fun hin => hR enc p n i hp hi hin, ?_⟩
  intro enc2 p2 n2 i2 hseed hp2 hi2 hbyte
  constructor
  · intro hpos
    rw [hW enc2 p2 n2 i2 hi2, hW enc p n i hi, hseed, hbyte]
    unfold refENCODE
    rw [hpos]
  · intro hpos hin hin2
    rw [hR enc2 p2 n2 i2 hp2 hi2 hin2, hR enc p n i hp hi hin, hseed, hbyte]
    unfold refDECODE
    rw [hpos]

/-- Witness of C3: offset 70 and offset 6 are the same position modulo 64. -/
theorem codec_eq_reference_witness :
    (Encrypter.Write ⟨List.range 64, 0, 70⟩ [1, 2, 3] 3).2[1]?
      = some (refENCODE (List.range 64) 71 2) :=
  (codec_eq_reference ⟨List.range 64, 0, 70⟩ [1, 2, 3] 3 1 (by decide) (by decide)).1

/-! ## Inbound parsers: the claims -/

/-- C2. Dispatcher classification: when the first read delivers `n ≥ 1` bytes without error,
`accept` hands exactly these bytes (`data[:n]`, `n ≤ 128`) to the SOCKS4 parser when the
first byte is 0x04, to the SOCKS5 parser when it is 0x05, to the HTTP parser when it lies in
0x41..0x5A, and for every other first byte it returns the error naming the byte, the
connection being touched by the read only. -/
theorem accept_dispatch (ReadRequest : Bytes → Prog Request) (conn : Conn) (r : ReadResult)
    (rest : List ReadResult) (b : Nat) (tl : Bytes)
    (hreads : conn.reads = r :: rest) (herr : r.err = none) (hdata : r.data = b :: tl) :
    (b = 0x04 →
      accept ReadRequest conn = acceptSOCKS4 (r.data.take 128) { conn with reads := rest }) ∧
    (b = 0x05 →
      accept ReadRequest conn = acceptSOCKS5 (r.data.take 128) { conn with reads := rest }) ∧
    (0x41 ≤ b ∧ b ≤ 0x5A →
      accept ReadRequest conn
        = acceptHTTP ReadRequest (r.data.take 128) { conn with reads := rest }) ∧
    (b ≠ 0x04 → b ≠ 0x05 → ¬ (0x41 ≤ b ∧ b ≤ 0x5A) →
      accept ReadRequest conn
        = (.error ("first byte invalid: " ++ String.singleton (Char.ofNat b)),
            { conn with reads := rest })) := by
  have hlen : 0 < r.data.length := by rw [hdata]; simp
  have hn : ¬ (min r.data.length 128 ≤ 0) := by omega
  have hb0 : (r.buffer 128).getD 0 0 = b := by
    rw [buffer_getD r 128 0 (by omega) hlen, hdata]; rfl
  have hslice : ∀ c : Conn, slice (r.buffer 128) 0 (min r.data.length 128) c
      = (.ok (r.data.take 128), c) := by
    intro c
    rw [slice_ok _ _ _ c (Nat.zero_le _) (by rw [buffer_length]; omega), List.drop_zero,
      buffer_take r 128 _ (by omega) (by omega), take_min_length]
  have hrun : accept ReadRequest conn =
      (if b = 0x04 then acceptSOCKS4 (r.data.take 128)
       else if b = 0x05 then acceptSOCKS5 (r.data.take 128)
       else if b > 0x40 ∧ b < 0x5B then acceptHTTP ReadRequest (r.data.take 128)
       else fail ("first byte invalid: " ++ String.singleton (Char.ofNat b)))
        { conn with reads := rest } := by
    unfold accept
    rw [bind_ok _ _ conn _ _ (Read_apply 128 conn r rest hreads)]
    simp only [herr, hn, if_false]
    rw [bind_ok _ _ _ _ _ (idx_buffer r 128 0 _ (by omega)), hb0]
    by_cases h4 : b = 0x04
    · rw [if_pos h4, if_pos h4, bind_ok _ _ _ _ _ (hslice _)]
    · rw [if_neg h4, if_neg h4]
      by_cases h5 : b = 0x05
      · rw [if_pos h5, if_pos h5, bind_ok _ _ _ _ _ (hslice _)]
      · rw [if_neg h5, if_neg h5]
        by_cases hh : b > 0x40 ∧ b < 0x5B
        · rw [if_pos hh, if_pos hh, bind_ok _ _ _ _ _ (hslice _)]
        · rw [if_neg hh, if_neg hh]
  refine ⟨?_, ?_, ?_, ?_⟩
  · intro h4; rw [hrun, if_pos h4]
  · intro h5
    have h4 : ¬ b = 0x04 := by omega
    rw [hrun, if_neg h4, if_pos h5]
  · intro hh
    have h4 : ¬ b = 0x04 := by omega
    have h5 : ¬ b = 0x05 := by omega
    have hh2 : b > 0x40 ∧ b < 0x5B := by omega
    rw [hrun, if_neg h4, if_neg h5, if_pos hh2]
  · intro h4 h5 hh
    have hh2 : ¬ (b > 0x40 ∧ b < 0x5B) := by omega
    rw [hrun, if_neg h4, if_neg h5, if_neg hh2]
    rfl

/-- Witness of C2: the five-byte first read `05 01 02 00 00` goes to the SOCKS5 parser. -/
theorem accept_dispatch_witness :
    accept (fun _ => fail "no request") ⟨[⟨[5, 1, 2, 0, 0], [], none⟩], [], []⟩
      = acceptSOCKS5 [5, 1, 2, 0, 0] ⟨[], [], []⟩ :=
  (accept_dispatch (fun _ => fail "no request") ⟨[⟨[5, 1, 2, 0, 0], [], none⟩], [], []⟩
    ⟨[5, 1, 2, 0, 0], [], none⟩ [] 5 [1, 2, 0, 0] rfl rfl rfl).2.1 rfl

/-- C5. SOCKS5 method negotiation: on a first buffer `05 NMETHODS METHODS(NMETHODS)`, if the
byte 0x00 is among the methods `acceptSOCKS5` writes `05 00` and, the write accepted, goes on
with the request phase; if it is not, it writes `05 FF` and fails with
"method not supported", no read having been made. -/
theorem socks5_method_negotiation (n : Nat) (methods : Bytes) (conn : Conn)
    (hlen : methods.length = n) :
    (0 ∈ methods → conn.writes.headD none = none →
      acceptSOCKS5 (5 :: n :: methods) conn
        = socks5Request
            { reads := conn.reads, writes := conn.writes.tail,
              written := conn.written ++ [[5, 0]] }) ∧
    (0 ∉ methods →
      acceptSOCKS5 (5 :: n :: methods) conn
        = (.error "method not supported",
            { reads := conn.reads, writes := conn.writes.tail,
              written := conn.written ++ [[5, 0xFF]] })) := by
  have ht : methods.take n = methods := by rw [← hlen]; exact List.take_length _
  rw [acceptSOCKS5_eq, ht]
  constructor
  · intro hm hw
    rw [if_pos hm, hw]; rfl
  · intro hm
    rw [if_neg hm]; rfl

/-- Witness of C5: `05 01 02` (user/password only) is answered with `05 FF`. -/
theorem socks5_method_negotiation_witness :
    acceptSOCKS5 [5, 1, 2] ⟨[], [], []⟩
      = (.error "method not supported", ⟨[], [], [[5, 0xFF]]⟩) :=
  (socks5_method_negotiation 1 [2] ⟨[], [], []⟩ rfl).2 (by decide)

/-- C4. SOCKS5 request decoding: after a successful method negotiation, for a request held
whole by the single read of at most 128 bytes and a connection that accepts the replies,
`acceptSOCKS5` returns the `tcp` endpoint whose host is the dotted quad of bytes 4..7 and
whose port is `256*byte[8] + byte[9]` (ATYP 1), or whose host is the `L` bytes after the
length byte at offset 4 and whose port is the big-endian value of the two bytes after them
(ATYP 3); the bytes written are `05 00`, then `05 00 00 01 00 00 00 00 00 00`. -/
theorem socks5_request_decoding (nMethods : Nat) (methods : Bytes) (conn : Conn)
    (r : ReadResult) (rest : List ReadResult)
    (hneg : 0 ∈ methods.take nMethods)
    (hw1 : conn.writes.headD none = none) (hw2 : conn.writes.tail.headD none = none)
    (hreads : conn.reads = r :: rest) (herr : r.err = none) (hfit : r.data.length ≤ 128) :
    (∀ cmd rsv a1 a2 a3 a4 p1 p2 : Nat, ∀ more : Bytes,
      r.data = [5, cmd, rsv, 1, a1, a2, a3, a4, p1, p2] ++ more →
      acceptSOCKS5 (5 :: nMethods :: methods) conn
        = (.ok { Schema := str "tcp", Host := dottedQuad a1 a2 a3 a4,
                 Port := 256 * (p1 : Int) + (p2 : Int), req := none },
            { reads := rest, writes := conn.writes.tail.tail,
              written := conn.written ++ [[5, 0], [5, 0, 0, 1, 0, 0, 0, 0, 0, 0]] })) ∧
    (∀ cmd rsv p1 p2 : Nat, ∀ domain more : Bytes,
      r.data = [5, cmd, rsv, 3, domain.length] ++ domain ++ [p1, p2] ++ more →
      acceptSOCKS5 (5 :: nMethods :: methods) conn
        = (.ok { Schema := str "tcp", Host := domain,
                 Port := 256 * (p1 : Int) + (p2 : Int), req := none },
            { reads := rest, writes := conn.writes.tail.tail,
              written := conn.written ++ [[5, 0], [5, 0, 0, 1, 0, 0, 0, 0, 0, 0]] })) := by
  have hstart : acceptSOCKS5 (5 :: nMethods :: methods) conn
      = socks5Request (conn.afterWrite [5, 0]) := by
    rw [acceptSOCKS5_eq, if_pos hneg, hw1]
  have hreads1 : (conn.afterWrite [5, 0]).reads = r :: rest := hreads
  have hw : (conn.afterWrite [5, 0]).writes.headD none = none := hw2
  constructor
  · intro cmd rsv a1 a2 a3 a4 p1 p2 more hdata
    have hlen : r.data.length = 10 + more.length := by rw [hdata]; simp; omega
    have hget : ∀ i, i < 10 → (r.buffer 128).getD i 0
        = ([5, cmd, rsv, 1, a1, a2, a3, a4, p1, p2] ++ more).getD i 0 := by
      intro i hi
      rw [buffer_getD r 128 i (by omega) (by omega), hdata]
    rw [hstart, socks5Request_ipv4 _ r rest hreads1 herr (by rw [hget 3 (by omega)]; rfl), hw,
      hget 4 (by omega), hget 5 (by omega), hget 6 (by omega), hget 7 (by omega),
      hget 8 (by omega), hget 9 (by omega)]
    simp [Conn.afterWrite]
  · intro cmd rsv p1 p2 domain more hdata
    have hlen : r.data.length = 7 + domain.length + more.length := by rw [hdata]; simp; omega
    have hget : ∀ i, i < 7 + domain.length → (r.buffer 128).getD i 0
        = ([5, cmd, rsv, 3, domain.length] ++ domain ++ [p1, p2] ++ more).getD i 0 := by
      intro i hi
      rw [buffer_getD r 128 i (by omega) (by omega), hdata]
    have hL : (r.buffer 128).getD 4 0 = domain.length := by rw [hget 4 (by omega)]; rfl
    have hhost : ((r.buffer 128).take (5 + domain.length)).drop 5 = domain := by
      rw [buffer_take r 128 _ (by omega) (by omega), hdata, List.append_assoc,
        List.append_assoc, List.take_append_eq_append_take]
      simp
    have hp1 : (r.buffer 128).getD (5 + domain.length) 0 = p1 := by
      have e : [5, cmd, rsv, 3, domain.length] ++ domain ++ [p1, p2] ++ more
          = ([5, cmd, rsv, 3, domain.length] ++ domain) ++ p1 :: (p2 :: more) := by simp
      have l : 5 + domain.length = ([5, cmd, rsv, 3, domain.length] ++ domain).length := by
        simp only [List.length_append, List.length_cons, List.length_nil]
      rw [hget _ (by omega), e, l, List.getD_eq_getElem?_getD, getElem?_at_length]
      rfl
    have hp2 : (r.buffer 128).getD (5 + domain.length + 1) 0 = p2 := by
      have e : [5, cmd, rsv, 3, domain.length] ++ domain ++ [p1, p2] ++ more
          = ([5, cmd, rsv, 3, domain.length] ++ domain ++ [p1]) ++ p2 :: more := by simp
      have l : 5 + domain.length + 1
          = ([5, cmd, rsv, 3, domain.length] ++ domain ++ [p1]).length := by
        simp only [List.length_append, List.length_cons, List.length_nil]
      rw [hget _ (by omega), e, l, List.getD_eq_getElem?_getD, getElem?_at_length]
      rfl
    rw [hstart, socks5Request_domain _ r rest hreads1 herr (by rw [hget 3 (by omega)]; rfl)
      (by rw [hL]; omega), hw, hL, hhost, hp1, hp2]
    simp [Conn.afterWrite]

/-- Witness of C4: after `05 01 00`, the request `05 01 00 01 7F 00 00 01 1F 90` yields
`127.0.0.1:8080`. -/
theorem socks5_request_decoding_witness :
    acceptSOCKS5 [5, 1, 0] ⟨[⟨[5, 1, 0, 1, 0x7F, 0, 0, 1, 0x1F, 0x90], [], none⟩], [], []⟩
      = (.ok { Schema := str "tcp", Host := str "127.0.0.1", Port := 8080, req := none },
          ⟨[], [], [[5, 0], [5, 0, 0, 1, 0, 0, 0, 0, 0, 0]]⟩) :=
  ((socks5_request_decoding 1 [0]
      ⟨[⟨[5, 1, 0, 1, 0x7F, 0, 0, 1, 0x1F, 0x90], [], none⟩], [], []⟩
      ⟨[5, 1, 0, 1, 0x7F, 0, 0, 1, 0x1F, 0x90], [], none⟩ []
      (by decide) rfl rfl rfl rfl (by decide)).1 1 0 0x7F 0 0 1 0x1F 0x90 [] rfl).trans
    (by decide)

/-- C8. SOCKS5 address-type refusal: after a successful method negotiation, when the byte at
offset 3 of the request buffer is neither 1 nor 3 (4, IPv6, included), `acceptSOCKS5` writes
`05 08 00 01 00 00 00 00 00 00` and returns the error "address type not supported", whether
or not that write is accepted. -/
theorem socks5_atyp_refusal (nMethods : Nat) (methods : Bytes) (conn : Conn)
    (r : ReadResult) (rest : List ReadResult)
    (hneg : 0 ∈ methods.take nMethods) (hw1 : conn.writes.headD none = none)
    (hreads : conn.reads = r :: rest) (herr : r.err = none)
    (h1 : (r.buffer 128).getD 3 0 ≠ 1) (h3 : (r.buffer 128).getD 3 0 ≠ 3) :
    acceptSOCKS5 (5 :: nMethods :: methods) conn
      = (.error "address type not supported",
          { reads := rest, writes := conn.writes.tail.tail,
            written := conn.written ++ [[5, 0], [5, 8, 0, 1, 0, 0, 0, 0, 0, 0]] }) := by
  rw [acceptSOCKS5_eq, if_pos hneg, hw1]
  have hreads1 : (conn.afterWrite [5, 0]).reads = r :: rest := hreads
  show socks5Request (conn.afterWrite [5, 0]) = _
  rw [socks5Request_refused _ r rest hreads1 herr h1 h3]
  simp [Conn.afterWrite]

/-- Witness of C8: an IPv6 request (ATYP 4) on a connection that rejects the refusal. -/
theorem socks5_atyp_refusal_witness :
    acceptSOCKS5 [5, 1, 0]
        ⟨[⟨[5, 1, 0, 4, 0, 0, 0, 0, 0, 0, 0, 0, 0, 0, 0, 0, 0, 0, 0, 1, 0, 80], [], none⟩],
          [none, some "broken pipe"], []⟩
      = (.error "address type not supported",
          ⟨[], [], [[5, 0], [5, 8, 0, 1, 0, 0, 0, 0, 0, 0]]⟩) :=
  socks5_atyp_refusal 1 [0]
    ⟨[⟨[5, 1, 0, 4, 0, 0, 0, 0, 0, 0, 0, 0, 0, 0, 0, 0, 0, 0, 0, 1, 0, 80], [], none⟩],
      [none, some "broken pipe"], []⟩
    ⟨[5, 1, 0, 4, 0, 0, 0, 0, 0, 0, 0, 0, 0, 0, 0, 0, 0, 0, 0, 1, 0, 80], [], none⟩ []
    (by decide) rfl rfl rfl (by decide) (by decide)

/-! ### SOCKS4a: the host-name path reads the host string of the request -/

theorem zero_split_mem :
    ∀ t : Bytes, 0 ∈ t →
      t = untilZero t ++ 0 :: afterZero t ∧ ∀ b ∈ untilZero t, b ≠ 0 := by
  intro t
  induction t with
  | nil => intro h; simp at h
  | cons a r ih =>
    intro h
    by_cases ha : a = 0
    · subst ha
      simp [untilZero, afterZero]
    · have hr : 0 ∈ r := by
        rcases List.mem_cons.mp h with h0 | h0
        · exact absurd h0.symm ha
        · exact h0
      obtain ⟨e, hnz⟩ := ih hr
      simp only [untilZero, afterZero, ha, if_false, List.cons_append]
      refine ⟨by rw [← e], ?_⟩
      intro b hb
      rcases List.mem_cons.mp hb with rfl | hb
      · exact ha
      · exact hnz b hb

theorem zero_split_not_mem :
    ∀ t : Bytes, 0 ∉ t → untilZero t = t ∧ afterZero t = [] := by
  intro t
  induction t with
  | nil => intro _; exact ⟨rfl, rfl⟩
  | cons a r ih =>
    intro h
    have ha : ¬ a = 0 := fun e => h (by rw [e]; exact List.mem_cons_self _ _)
    have hr : 0 ∉ r := fun e => h (List.mem_cons_of_mem _ e)
    obtain ⟨e1, e2⟩ := ih hr
    simp only [untilZero, afterZero, ha, if_false, e1, e2, and_self]

theorem skipUSERID_untilZero (c : Conn) :
    ∀ (t pre : Bytes) (fuel : Nat), t.length ≤ fuel →
      skipUSERID (pre ++ t) fuel pre.length c
        = (.ok (pre.length + (untilZero t).length), c) := by
  intro t
  induction t with
  | nil =>
    intro pre fuel _
    cases fuel with
    | zero => rfl
    | succ f =>
      unfold skipUSERID
      rw [if_neg (by simp)]
      rfl
  | cons u us ih =>
    intro pre fuel hf
    obtain ⟨f, rfl⟩ : ∃ f, fuel = f + 1 := ⟨fuel - 1, by simp at hf; omega⟩
    unfold skipUSERID
    have hlt : pre.length < (pre ++ u :: us).length := by simp
    rw [if_pos hlt, bind_ok _ _ c c u (idx_ok _ _ _ c (getElem?_at_length pre u us))]
    by_cases hu : u ≠ 0
    · rw [if_pos hu]
      have hbuf : pre ++ u :: us = (pre ++ [u]) ++ us := by simp
      have hlen : pre.length + 1 = (pre ++ [u]).length := by simp
      rw [hbuf, hlen, ih (pre ++ [u]) f (by simp at hf; omega)]
      have hu2 : ¬ u = 0 := hu
      simp only [untilZero, hu2, if_false, List.length_append, List.length_cons, List.length_nil]
      congr 2
      omega
    · rw [if_neg hu]
      have hu2 : u = 0 := by omega
      simp [untilZero, hu2, pure_apply]

theorem scanHost_untilZero (c : Conn) (pre : Bytes) :
    ∀ (t h1 : Bytes) (fuel : Nat), t.length ≤ fuel →
      scanHost (pre ++ h1 ++ t) pre.length fuel (pre.length + h1.length) c
        = (.ok (if 0 ∈ t then h1 ++ untilZero t else []), c) := by
  intro t
  induction t with
  | nil =>
    intro h1 fuel _
    cases fuel with
    | zero => rfl
    | succ f =>
      unfold scanHost
      rw [if_neg (by simp)]
      rfl
  | cons u us ih =>
    intro h1 fuel hf
    obtain ⟨f, rfl⟩ : ∃ f, fuel = f + 1 := ⟨fuel - 1, by simp at hf; omega⟩
    unfold scanHost
    have hlt : pre.length + h1.length < (pre ++ h1 ++ u :: us).length := by simp
    have hget : (pre ++ h1 ++ u :: us)[pre.length + h1.length]? = some u := by
      have := getElem?_at_length (pre ++ h1) u us
      rwa [List.length_append] at this
    rw [if_pos hlt, bind_ok _ _ c c u (idx_ok _ _ _ c hget)]
    by_cases hu : u = 0
    · rw [if_pos hu, slice_ok _ _ _ c (by omega) (by omega)]
      have htake : (pre ++ h1 ++ u :: us).take (pre.length + h1.length) = pre ++ h1 := by
        rw [List.take_append_of_le_length (by simp)]
        exact List.take_of_length_le (by simp)
      rw [htake, List.drop_left]
      simp [hu, untilZero]
    · rw [if_neg hu]
      have hbuf : pre ++ h1 ++ u :: us = pre ++ (h1 ++ [u]) ++ us := by simp
      have hlen : pre.length + h1.length + 1 = pre.length + (h1 ++ [u]).length := by
        simp only [List.length_append, List.length_cons, List.length_nil]; omega
      rw [hbuf, hlen, ih (h1 ++ [u]) f (by simp at hf; omega)]
      have hu2 : ¬ (0 = u) := fun e => hu e.symm
      simp [untilZero, hu, hu2]

theorem scanHost_past (buf : Bytes) (start fuel i : Nat) (c : Conn) (h : buf.length ≤ i) :
    scanHost buf start fuel i c = (.ok [], c) := by
  cases fuel with
  | zero => rfl
  | succ f =>
    unfold scanHost
    rw [if_neg (by omega)]
    rfl

theorem socks4aHost_eq (buf : Bytes) (c : Conn) (h : 8 ≤ buf.length) :
    socks4aHost buf c = (.ok (refSocks4aHost buf), c) := by
  have hsplit : buf = buf.take 8 ++ buf.drop 8 := (List.take_append_drop 8 buf).symm
  have hpre : (buf.take 8).length = 8 := by simp; omega
  have hfuel : (buf.drop 8).length ≤ buf.length := by simp
  have hskip : skipUSERID buf buf.length 8 c
      = (.ok (8 + (untilZero (buf.drop 8)).length), c) := by
    have := skipUSERID_untilZero c (buf.drop 8) (buf.take 8) buf.length hfuel
    rwa [← hsplit, hpre] at this
  unfold socks4aHost refSocks4aHost
  rw [bind_ok _ _ c c _ hskip]
  by_cases hz : 0 ∈ buf.drop 8
  · obtain ⟨e, _⟩ := zero_split_mem (buf.drop 8) hz
    have hbuf : buf = (buf.take 8 ++ untilZero (buf.drop 8) ++ [0]) ++ []
        ++ afterZero (buf.drop 8) := by
      conv => lhs; rw [hsplit, e]
      simp
    have hlen : 8 + (untilZero (buf.drop 8)).length + 1
        = (buf.take 8 ++ untilZero (buf.drop 8) ++ [0]).length + ([] : Bytes).length := by
      simp only [List.length_append, List.length_cons, List.length_nil, hpre]
    have hlen2 : 8 + (untilZero (buf.drop 8)).length + 1
        = (buf.take 8 ++ untilZero (buf.drop 8) ++ [0]).length := by
      simp only [List.length_append, List.length_cons, List.length_nil, hpre]
    have hsc := scanHost_untilZero c (buf.take 8 ++ untilZero (buf.drop 8) ++ [0])
      (afterZero (buf.drop 8)) [] buf.length (by
        have := congrArg List.length hbuf
        simp only [List.length_append, List.length_cons, List.length_nil] at this
        omega)
    rw [← hbuf, ← hlen, ← hlen2] at hsc
    rw [hsc]
    simp
  · obtain ⟨e1, e2⟩ := zero_split_not_mem (buf.drop 8) hz
    rw [e1, e2, scanHost_past buf _ _ _ c (by simp; omega)]
    simp

theorem untilZero_append (rest : Bytes) :
    ∀ a : Bytes, (∀ b ∈ a, b ≠ 0) → untilZero (a ++ 0 :: rest) = a := by
  intro a
  induction a with
  | nil => intro _; simp [untilZero]
  | cons x r ih =>
    intro h
    have hx : ¬ x = 0 := h x (List.mem_cons_self _ _)
    show untilZero (x :: (r ++ 0 :: rest)) = x :: r
    simp only [untilZero, hx, if_false, ih (fun b hb => h b (List.mem_cons_of_mem _ hb))]

theorem afterZero_append (rest : Bytes) :
    ∀ a : Bytes, (∀ b ∈ a, b ≠ 0) → afterZero (a ++ 0 :: rest) = rest := by
  intro a
  induction a with
  | nil => intro _; simp [afterZero]
  | cons x r ih =>
    intro h
    have hx : ¬ x = 0 := h x (List.mem_cons_self _ _)
    show afterZero (x :: (r ++ 0 :: rest)) = rest
    simp only [afterZero, hx, if_false, ih (fun b hb => h b (List.mem_cons_of_mem _ hb))]

/-- C6. SOCKS4a triggering: on a request buffer of at least 8 bytes and a connection that
accepts the reply, when DST.IP (offsets 4..7) is `00 00 00 NN` with `NN > 0` the host-name
path is taken: the returned host is the zero-terminated string that follows the
zero-terminated USERID (for a buffer `… USERID 00 HOST 00 …` it is HOST; it is empty when
that string is not terminated in the buffer); for every other DST.IP the returned host is
the dotted quad of these four bytes; in both cases the port is `256*byte[2] + byte[3]`. -/
theorem socks4a_triggering (v cmd p1 p2 a1 a2 a3 a4 : Nat) (more : Bytes) (conn : Conn)
    (hw : conn.writes.headD none = none) :
    ((a1 = 0 ∧ a2 = 0 ∧ a3 = 0 ∧ 0 < a4) →
      socks4aHost (v :: cmd :: p1 :: p2 :: a1 :: a2 :: a3 :: a4 :: more) conn
        = (.ok (refSocks4aHost (v :: cmd :: p1 :: p2 :: a1 :: a2 :: a3 :: a4 :: more)), conn) ∧
      acceptSOCKS4 (v :: cmd :: p1 :: p2 :: a1 :: a2 :: a3 :: a4 :: more) conn
        = (.ok { Schema := str "tcp",
                 Host := refSocks4aHost (v :: cmd :: p1 :: p2 :: a1 :: a2 :: a3 :: a4 :: more),
                 Port := 256 * (p1 : Int) + (p2 : Int), req := none },
            { reads := conn.reads, writes := conn.writes.tail,
              written := conn.written ++ [[0, 90, p1, p2, a1, a2, a3, a4]] }) ∧
      (∀ userid host rest : Bytes, more = userid ++ 0 :: (host ++ 0 :: rest) →
        (∀ b ∈ userid, b ≠ 0) → (∀ b ∈ host, b ≠ 0) →
        refSocks4aHost (v :: cmd :: p1 :: p2 :: a1 :: a2 :: a3 :: a4 :: more) = host)) ∧
    (¬ (a1 = 0 ∧ a2 = 0 ∧ a3 = 0 ∧ 0 < a4) →
      acceptSOCKS4 (v :: cmd :: p1 :: p2 :: a1 :: a2 :: a3 :: a4 :: more) conn
        = (.ok { Schema := str "tcp", Host := dottedQuad a1 a2 a3 a4,
                 Port := 256 * (p1 : Int) + (p2 : Int), req := none },
            { reads := conn.reads, writes := conn.writes.tail,
              written := conn.written ++ [[0, 90, p1, p2, a1, a2, a3, a4]] })) := by
  constructor
  · intro ht
    have hhost := socks4aHost_eq (v :: cmd :: p1 :: p2 :: a1 :: a2 :: a3 :: a4 :: more) conn
      (by simp)
    refine ⟨hhost, ?_, ?_⟩
    · rw [acceptSOCKS4_of_host v cmd p1 p2 a1 a2 a3 a4 more conn _
        (by rw [decide_eq_true ht, if_pos rfl]; exact hhost), hw]
      rfl
    · intro userid host rest hmore huid hh
      have hdrop : (v :: cmd :: p1 :: p2 :: a1 :: a2 :: a3 :: a4 :: more).drop 8 = more := rfl
      unfold refSocks4aHost
      rw [hdrop, hmore, afterZero_append _ userid huid, untilZero_append _ host hh]
      simp
  · intro ht
    rw [acceptSOCKS4_of_host v cmd p1 p2 a1 a2 a3 a4 more conn (dottedQuad a1 a2 a3 a4)
      (by rw [decide_eq_false ht, if_neg Bool.false_ne_true]; exact socks4Host_eq _ _ _ _ _ _ _ _ _ _),
      hw]
    rfl

/-- Witness of C6: with DST.IP `00 00 00 02` the request `04 01 00 50 00 00 00 02 00 'h' 00`
yields the host name `h`; DST.IP `00 00 01 01` is not the SOCKS4a pattern and is rendered as
a dotted quad. -/
theorem socks4a_triggering_witness :
    acceptSOCKS4 [4, 1, 0, 80, 0, 0, 0, 2, 0, 104, 0] ⟨[], [], []⟩
      = (.ok { Schema := str "tcp", Host := str "h", Port := 80, req := none },
          ⟨[], [], [[0, 90, 0, 80, 0, 0, 0, 2]]⟩) ∧
    acceptSOCKS4 [4, 1, 0, 80, 0, 0, 1, 1, 0] ⟨[], [], []⟩
      = (.ok { Schema := str "tcp", Host := str "0.0.1.1", Port := 80, req := none },
          ⟨[], [], [[0, 90, 0, 80, 0, 0, 1, 1]]⟩) :=
  ⟨((socks4a_triggering 4 1 0 80 0 0 0 2 [0, 104, 0] ⟨[], [], []⟩ rfl).1 (by decide)).2.1.trans
      (by decide),
   ((socks4a_triggering 4 1 0 80 0 0 1 1 [0] ⟨[], [], []⟩ rfl).2 (by decide)).trans (by decide)⟩

/-- C7. SOCKS4a decoding and reply: on the request
`04 01 P1 P2 00 00 00 NN USERID 00 HOST 00` with `NN > 0` and no zero byte in USERID and
HOST (whatever follows it in the buffer), and a connection that accepts the reply,
`acceptSOCKS4` returns the endpoint (`tcp`, HOST, `256*P1 + P2`) and writes exactly the
8 bytes `00 5A P1 P2 00 00 00 NN`. -/
theorem socks4a_decoding (p1 p2 nn : Nat) (userid host more : Bytes) (conn : Conn)
    (hnn : 0 < nn) (huid : ∀ b ∈ userid, b ≠ 0) (hhost : ∀ b ∈ host, b ≠ 0)
    (hw : conn.writes.headD none = none) :
    acceptSOCKS4 ([4, 1, p1, p2, 0, 0, 0, nn] ++ userid ++ [0] ++ host ++ [0] ++ more) conn
      = (.ok { Schema := str "tcp", Host := host, Port := 256 * (p1 : Int) + (p2 : Int),
               req := none },
          { reads := conn.reads, writes := conn.writes.tail,
            written := conn.written ++ [[0, 0x5A, p1, p2, 0, 0, 0, nn]] }) := by
  have hbuf : [4, 1, p1, p2, 0, 0, 0, nn] ++ userid ++ [0] ++ host ++ [0] ++ more
      = 4 :: 1 :: p1 :: p2 :: 0 :: 0 :: 0 :: nn :: (userid ++ 0 :: (host ++ 0 :: more)) := by
    simp
  have hpath : socks4aHost
      (4 :: 1 :: p1 :: p2 :: 0 :: 0 :: 0 :: nn :: (userid ++ 0 :: (host ++ 0 :: more))) conn
      = (.ok host, conn) := by
    unfold socks4aHost
    have e1 : 4 :: 1 :: p1 :: p2 :: 0 :: 0 :: 0 :: nn :: (userid ++ 0 :: (host ++ 0 :: more))
        = [4, 1, p1, p2, 0, 0, 0, nn] ++ userid ++ 0 :: (host ++ 0 :: more) := by simp
    have hs : skipUSERID
        ([4, 1, p1, p2, 0, 0, 0, nn] ++ userid ++ 0 :: (host ++ 0 :: more))
        ([4, 1, p1, p2, 0, 0, 0, nn] ++ userid ++ 0 :: (host ++ 0 :: more)).length 8 conn
        = (.ok (8 + userid.length), conn) :=
      skipUSERID_found conn (host ++ 0 :: more) userid [4, 1, p1, p2, 0, 0, 0, nn] _ huid
        (by simp only [List.length_append, List.length_cons, List.length_nil]; omega)
    have e2 : [4, 1, p1, p2, 0, 0, 0, nn] ++ userid ++ 0 :: (host ++ 0 :: more)
        = ([4, 1, p1, p2, 0, 0, 0, nn] ++ userid ++ [0]) ++ [] ++ host ++ 0 :: more := by simp
    have l3 : 8 + userid.length + 1
        = ([4, 1, p1, p2, 0, 0, 0, nn] ++ userid ++ [0]).length := by
      simp only [List.length_append, List.length_cons, List.length_nil]
    have hc : scanHost
        ([4, 1, p1, p2, 0, 0, 0, nn] ++ userid ++ 0 :: (host ++ 0 :: more))
        (8 + userid.length + 1)
        ([4, 1, p1, p2, 0, 0, 0, nn] ++ userid ++ 0 :: (host ++ 0 :: more)).length
        (8 + userid.length + 1) conn
        = (.ok host, conn) := by
      rw [e2, l3]
      exact scanHost_found conn _ more host [] _ hhost
        (by simp only [List.length_append, List.length_cons, List.length_nil]; omega)
    rw [e1, bind_ok _ _ conn conn _ hs]
    exact hc
  rw [hbuf, acceptSOCKS4_of_host 4 1 p1 p2 0 0 0 nn _ conn host
    (by rw [decide_eq_true ⟨rfl, rfl, rfl, hnn⟩, if_pos rfl]; exact hpath), hw]
  rfl

/-- Witness of C7: `04 01 1F 90 00 00 00 01 00 'www.example.com' 00` yields
`www.example.com:8080` and the reply `00 5A 1F 90 00 00 00 01`. -/
theorem socks4a_decoding_witness :
    acceptSOCKS4 ([4, 1, 0x1F, 0x90, 0, 0, 0, 1, 0] ++ str "www.example.com" ++ [0])
        ⟨[], [], []⟩
      = (.ok { Schema := str "tcp", Host := str "www.example.com", Port := 8080, req := none },
          ⟨[], [], [[0, 0x5A, 0x1F, 0x90, 0, 0, 0, 1]]⟩) :=
  socks4a_decoding 0x1F 0x90 1 [] (str "www.example.com") [] ⟨[], [], []⟩
    (by decide) (by decide) (by decide) rfl

/-- C9, as the code has it. Whenever `acceptSOCKS4` or `acceptSOCKS5` returns successfully,
the endpoint has schema "tcp" and a port that is not negative (for SOCKS4 the value
`256*byte[2] + byte[3]`); the host is not empty when it is a dotted quad, that is for SOCKS4
without the `00 00 00 NN` pattern and for SOCKS5 with ATYP 1.  Nothing more is checked: on
the host-name paths the host can be empty, and the port is 0 when both port bytes are 0. -/
theorem parsed_endpoint_invariant (buf : Bytes) (conn conn1 : Conn) (ep : Endpoint) :
    (acceptSOCKS4 buf conn = (.ok ep, conn1) →
      ep.Schema = str "tcp" ∧ 0 ≤ ep.Port ∧
      ep.Port = 256 * (buf.getD 2 0 : Int) + (buf.getD 3 0 : Int) ∧
      (¬ (buf.getD 4 0 = 0 ∧ buf.getD 5 0 = 0 ∧ buf.getD 6 0 = 0 ∧ 0 < buf.getD 7 0) →
        ep.Host ≠ [])) ∧
    (acceptSOCKS5 buf conn = (.ok ep, conn1) →
      ep.Schema = str "tcp" ∧ 0 ≤ ep.Port ∧
      (∀ r rest, conn.reads = r :: rest → (r.buffer 128).getD 3 0 = 1 → ep.Host ≠ [])) := by
  constructor
  · intro h
    obtain ⟨v, cmd, p1, p2, a1, a2, a3, a4, more, rfl⟩ :=
      exists_eight buf (acceptSOCKS4_ok_length buf conn conn1 ep h)
    have hport : (0 : Int) ≤ 256 * (p1 : Int) + (p2 : Int) := by positivity
    by_cases ht : a1 = 0 ∧ a2 = 0 ∧ a3 = 0 ∧ 0 < a4
    · obtain ⟨host, hhost⟩ :=
        socks4aHost_total (v :: cmd :: p1 :: p2 :: a1 :: a2 :: a3 :: a4 :: more) conn
      rw [acceptSOCKS4_of_host v cmd p1 p2 a1 a2 a3 a4 more conn host
        (by rw [decide_eq_true ht, if_pos rfl]; exact hhost)] at h
      cases hw : conn.writes.headD none with
      | some e => rw [hw] at h; simp at h
      | none =>
        rw [hw] at h
        simp only [Prod.mk.injEq, Res.ok.injEq] at h
        rw [← h.1]
        exact ⟨rfl, hport, rfl, fun hn => absurd ht hn⟩
    · rw [acceptSOCKS4_of_host v cmd p1 p2 a1 a2 a3 a4 more conn (dottedQuad a1 a2 a3 a4)
        (by rw [decide_eq_false ht, if_neg Bool.false_ne_true]
            exact socks4Host_eq _ _ _ _ _ _ _ _ _ _)] at h
      cases hw : conn.writes.headD none with
      | some e => rw [hw] at h; simp at h
      | none =>
        rw [hw] at h
        simp only [Prod.mk.injEq, Res.ok.injEq] at h
        rw [← h.1]
        exact ⟨rfl, hport, rfl, fun _ => dottedQuad_ne_nil _ _ _ _⟩
  · exact acceptSOCKS5_ok_inv buf conn conn1 ep

/-- Witness of C9 as amended: the SOCKS4 request for `1.2.3.4:80`. -/
theorem parsed_endpoint_invariant_witness :
    (⟨str "tcp", str "1.2.3.4", 80, none⟩ : Endpoint).Schema = str "tcp" ∧
      (0 : Int) ≤ (⟨str "tcp", str "1.2.3.4", 80, none⟩ : Endpoint).Port ∧
      (⟨str "tcp", str "1.2.3.4", 80, none⟩ : Endpoint).Port
        = 256 * (([4, 1, 0, 80, 1, 2, 3, 4, 0] : Bytes).getD 2 0 : Int)
          + (([4, 1, 0, 80, 1, 2, 3, 4, 0] : Bytes).getD 3 0 : Int) ∧
      (¬ (([4, 1, 0, 80, 1, 2, 3, 4, 0] : Bytes).getD 4 0 = 0
          ∧ ([4, 1, 0, 80, 1, 2, 3, 4, 0] : Bytes).getD 5 0 = 0
          ∧ ([4, 1, 0, 80, 1, 2, 3, 4, 0] : Bytes).getD 6 0 = 0
          ∧ 0 < ([4, 1, 0, 80, 1, 2, 3, 4, 0] : Bytes).getD 7 0) →
        (⟨str "tcp", str "1.2.3.4", 80, none⟩ : Endpoint).Host ≠ []) :=
  (parsed_endpoint_invariant [4, 1, 0, 80, 1, 2, 3, 4, 0] ⟨[], [], []⟩
    ⟨[], [], [[0, 90, 0, 80, 1, 2, 3, 4]]⟩ ⟨str "tcp", str "1.2.3.4", 80, none⟩).1 (by decide)

/-- C9 fails as stated: the SOCKS4a request `04 01 00 00 00 00 00 01 00 00` (port bytes
`00 00`, empty USERID, empty host name) and, after `05 01 00`, the SOCKS5 request
`05 01 00 03 00 00 00` (domain of length 0, port bytes `00 00`) are both accepted with an
empty host and port 0. -/
theorem parsed_endpoint_invariant_fails :
    (∃ ep c, acceptSOCKS4 [4, 1, 0, 0, 0, 0, 0, 1, 0, 0] ⟨[], [], []⟩ = (.ok ep, c)
        ∧ ep.Host = [] ∧ ep.Port = 0) ∧
    (∃ ep c, acceptSOCKS5 [5, 1, 0] ⟨[⟨[5, 1, 0, 3, 0, 0, 0], [], none⟩], [], []⟩ = (.ok ep, c)
        ∧ ep.Host = [] ∧ ep.Port = 0) :=
  ⟨⟨⟨str "tcp", [], 0, none⟩, ⟨[], [], [[0, 90, 0, 0, 0, 0, 0, 1]]⟩, by decide, rfl, rfl⟩,
   ⟨⟨str "tcp", [], 0, none⟩, ⟨[], [], [[5, 0], [5, 0, 0, 1, 0, 0, 0, 0, 0, 0]]⟩,
     by decide, rfl, rfl⟩⟩

/-- C10, as the code has it. With a gateway whose schema is none of "none", "socks",
"socks4", "socks5", "http", a session whose inbound handshake is accepted ends with the
error "schema invalid of gateway Endpoint" and no connector is called (the outcome does not
depend on `dial`); a session whose handshake fails ends there.  A `nil` gateway is
replaced by the "none" endpoint at the entry of `Connect`. -/
theorem gateway_schema_invalid (ReadRequest : Bytes → Prog Request)
    (dial : ConnectCall → Option String) (src : Conn) (gateway : Endpoint)
    (h1 : gateway.Schema ≠ str "none") (h2 : gateway.Schema ≠ str "socks")
    (h3 : gateway.Schema ≠ str "socks4") (h4 : gateway.Schema ≠ str "socks5")
    (h5 : gateway.Schema ≠ str "http") :
    Connect ReadRequest dial src (some gateway)
      = (match accept ReadRequest src with
          | (.ok _, c) => (.connectFailed "schema invalid of gateway Endpoint", c)
          | (.error e, c) => (.acceptFailed e, c)
          | (.panic e, c) => (.recovered e, c)) ∧
    Connect ReadRequest dial src none = Connect ReadRequest dial src (some NoneEndpoint) := by
  constructor
  · unfold Connect
    rcases accept ReadRequest src with ⟨r, c⟩
    cases r with
    | ok ep => simp [connect, h1, h2, h3, h4, h5]
    | error e => rfl
    | panic e => rfl
  · rfl

/-- Witness of C10 as amended: the gateway `ftp://10.0.0.1:21` and a SOCKS4 request for
`1.2.3.4:80`. -/
theorem gateway_schema_invalid_witness :
    Connect (fun _ => fail "no request") (fun _ => none)
        ⟨[⟨[4, 1, 0, 80, 1, 2, 3, 4, 0], [], none⟩], [], []⟩
        (some ⟨str "ftp", str "10.0.0.1", 21, none⟩)
      = (.connectFailed "schema invalid of gateway Endpoint",
          ⟨[], [], [[0, 90, 0, 80, 1, 2, 3, 4]]⟩) :=
  ((gateway_schema_invalid (fun _ => fail "no request") (fun _ => none)
      ⟨[⟨[4, 1, 0, 80, 1, 2, 3, 4, 0], [], none⟩], [], []⟩
      ⟨str "ftp", str "10.0.0.1", 21, none⟩
      (by decide) (by decide) (by decide) (by decide) (by decide)).1).trans (by decide)

/-- C10 fails as stated: the gateway string `socks5://10.0.0.1:abc` is rejected by
`ParseEndpoint`, the server hands the resulting `nil` to `Connect`, and the session of a
SOCKS4 request for `1.2.3.4:80` goes on to the direct connector `connectTCP` for that
destination and to the relay. -/
theorem bad_gateway_string_connects_directly :
    ParseEndpoint (str "socks5://10.0.0.1:abc") = none ∧
    serverSession (fun _ => fail "no request") (fun _ => none)
        (str "socks5://10.0.0.1:abc")
        ⟨[⟨[4, 1, 0, 80, 1, 2, 3, 4, 0], [], none⟩], [], []⟩
      = (.relay (.connectTCP ⟨str "tcp", str "1.2.3.4", 80, none⟩) false,
          ⟨[], [], [[0, 90, 0, 80, 1, 2, 3, 4]]⟩) := by
  constructor <;> decide

/-! ## Codec: offsets, directions, in-place encoding -/

/-- C14, as the code has it. For an `Encrypter` whose offsets are `int`s and a call whose
underlying `Read` (or `Write`) returned `n`: when the offset plus `n` does not exceed the
largest `int`, `readOffset` (or `writeOffset`, short writes included) grows by exactly `n`
and so does not decrease; in every case, the wrap-around of `int` included, the offset stays
an `int` and the position `offset&63` used by the transform advances by `n` modulo 64; after
a write of 5 bytes at offset 0 of which 3 are accepted, the next `Write` transforms its
byte 0 at absolute position 3. -/
theorem offsets_advance (enc : Encrypter) (p : Bytes) (n : Nat)
    (hr : enc.readOffset < 2 ^ 64) (hw : enc.writeOffset < 2 ^ 64) :
    (int64Of enc.readOffset + (n : Int) < 2 ^ 63 →
      int64Of (enc.Read p n).1.readOffset = int64Of enc.readOffset + (n : Int) ∧
      int64Of enc.readOffset ≤ int64Of (enc.Read p n).1.readOffset) ∧
    (int64Of enc.writeOffset + (n : Int) < 2 ^ 63 →
      int64Of (enc.Write p n).1.writeOffset = int64Of enc.writeOffset + (n : Int) ∧
      int64Of enc.writeOffset ≤ int64Of (enc.Write p n).1.writeOffset) ∧
    (enc.Read p n).1.readOffset % 64 = (enc.readOffset + n) % 64 ∧
    (enc.Write p n).1.writeOffset % 64 = (enc.writeOffset + n) % 64 ∧
    (enc.Read p n).1.readOffset < 2 ^ 64 ∧
    (enc.Write p n).1.writeOffset < 2 ^ 64 ∧
    (∀ (seed : List Nat) (b1 b2 b3 b4 b5 b : Nat) (q : Bytes) (m : Nat),
      ((((NewEncrypter seed).Write [b1, b2, b3, b4, b5] 3).1.Write (b :: q) m).2)[0]?
        = some (refENCODE seed 3 b)) := by
  have hR : (enc.Read p n).1.readOffset = (enc.readOffset + n) % 2 ^ 64 := by
    unfold Encrypter.Read
    by_cases hn : n > 0
    · rw [if_pos hn]
    · rw [if_neg hn]
      have h0 : n = 0 := by omega
      rw [h0]
      exact (Nat.mod_eq_of_lt hr).symm
  have hW : (enc.Write p n).1.writeOffset = (enc.writeOffset + n) % 2 ^ 64 := rfl
  have step : ∀ o : Nat, o < 2 ^ 64 → int64Of o + (n : Int) < 2 ^ 63 →
      int64Of ((o + n) % 2 ^ 64) = int64Of o + (n : Int) := by
    intro o ho hlt
    unfold int64Of at hlt ⊢
    split_ifs at hlt ⊢ <;> omega
  refine ⟨?_, ?_, by rw [hR]; omega, by rw [hW]; omega, by rw [hR]; omega, by rw [hW]; omega,
    ?_⟩
  · intro h
    rw [hR, step _ hr h]
    exact ⟨rfl, by omega⟩
  · intro h
    rw [hW, step _ hw h]
    exact ⟨rfl, by omega⟩
  · intro seed b1 b2 b3 b4 b5 b q m
    rw [Write_eq, Write_eq]
    simp [encFrom, NewEncrypter]

/-- Witness of C14 as amended: 5 bytes written at offset 0, 3 of them accepted. -/
theorem offsets_advance_witness :
    int64Of (Encrypter.Write ⟨List.range 64, 0, 0⟩ [1, 2, 3, 4, 5] 3).1.writeOffset
        = int64Of 0 + ((3 : Nat) : Int) ∧
      int64Of 0 ≤ int64Of (Encrypter.Write ⟨List.range 64, 0, 0⟩ [1, 2, 3, 4, 5] 3).1.writeOffset :=
  (offsets_advance ⟨List.range 64, 0, 0⟩ [1, 2, 3, 4, 5] 3 (by decide) (by decide)).2.1
    (by decide)

/-- C14 fails as stated: at `writeOffset = 9223372036854775806`, the largest `int` less one,
a `Write` of which 3 bytes are accepted leaves the offset at `-9223372036854775807`: it has
not grown by 3, it has decreased. -/
theorem offsets_advance_fails :
    int64Of 9223372036854775806 = 9223372036854775806 ∧
    int64Of (Encrypter.Write ⟨List.range 64, 0, 9223372036854775806⟩ [1, 2, 3] 3).1.writeOffset
      = -9223372036854775807 ∧
    int64Of (Encrypter.Write ⟨List.range 64, 0, 9223372036854775806⟩ [1, 2, 3] 3).1.writeOffset
      < int64Of 9223372036854775806 := by
  refine ⟨by decide, by decide, by decide⟩

/-- C15. Independence of directions: `Write` leaves `readOffset` and the seed unchanged,
`Read` leaves `writeOffset` and the seed unchanged; hence a `Read` returns the same buffer
whether or not a `Write` (of any buffer, with any accepted count) came before it, and a
`Write` hands the same bytes to the underlying writer whether or not a `Read` came before
it. -/
theorem directions_independent (enc : Encrypter) (p q : Bytes) (n k : Nat) :
    (enc.Write p n).1.readOffset = enc.readOffset ∧
    (enc.Write p n).1.seed = enc.seed ∧
    (enc.Read p n).1.writeOffset = enc.writeOffset ∧
    (enc.Read p n).1.seed = enc.seed ∧
    ((enc.Write q k).1.Read p n).2 = (enc.Read p n).2 ∧
    ((enc.Read q k).1.Write p n).2 = (enc.Write p n).2 := by
  have hRw : (enc.Read q k).1.writeOffset = enc.writeOffset ∧ (enc.Read q k).1.seed = enc.seed := by
    unfold Encrypter.Read
    by_cases hk : k > 0
    · rw [if_pos hk]; exact ⟨rfl, rfl⟩
    · rw [if_neg hk]; exact ⟨rfl, rfl⟩
  have hRw2 : (enc.Read p n).1.writeOffset = enc.writeOffset ∧ (enc.Read p n).1.seed = enc.seed := by
    unfold Encrypter.Read
    by_cases hk : n > 0
    · rw [if_pos hk]; exact ⟨rfl, rfl⟩
    · rw [if_neg hk]; exact ⟨rfl, rfl⟩
  refine ⟨rfl, rfl, hRw2.1, hRw2.2, ?_, ?_⟩
  · have hs : (enc.Write q k).1.seed = enc.seed := rfl
    have ho : (enc.Write q k).1.readOffset = enc.readOffset := rfl
    unfold Encrypter.Read
    rw [hs, ho]
    by_cases hn : n > 0
    · rw [if_pos hn, if_pos hn]
    · rw [if_neg hn, if_neg hn]
  · unfold Encrypter.Write
    rw [hRw.1, hRw.2]

/-- C16. ENCODE is never the identity: whatever the key and the write offset (hence in every
offset class modulo 64), one of the byte values 0 and 1 is handed to the underlying writer
as a different byte. -/
theorem encode_not_identity (enc : Encrypter) (n : Nat) :
    ∃ b, b < 256 ∧ (enc.Write [b] n).2 ≠ [b] := by
  by_cases h0 : (enc.Write [0] n).2 = [0]
  · refine ⟨1, by omega, ?_⟩
    intro h1
    rw [Write_eq] at h0 h1
    simp only [encFrom, refENCODE, List.cons.injEq, and_true] at h0 h1
    generalize refStep (enc.writeOffset % 64) * enc.seed.getD (enc.writeOffset % 64) 0 = t at h0 h1
    omega
  · exact ⟨0, by omega, h0⟩

/-- C18. `Write` encodes in place: whatever count `n` the underlying writer accepted, the
caller's buffer after the call holds ENCODE at position `o+i` of `p[i]` at every index; so
when the unsent tail `p'[n:]` is passed to `Write` again after a short write, the bytes sent
decode, at their positions `o+n+j`, to the already encoded bytes `p'[n+j]`, not to the
plaintext. -/
theorem write_encodes_in_place (enc : Encrypter) (p : Bytes) (n m : Nat) :
    (enc.Write p n).2 = encFrom enc.seed enc.writeOffset p ∧
    (∀ i, i < p.length →
      (enc.Write p n).2[i]? = some (refENCODE enc.seed (enc.writeOffset + i) (p.getD i 0))) ∧
    (∀ rx : Encrypter, rx.seed = enc.seed → rx.readOffset = enc.writeOffset + n →
      n < p.length →
      (rx.Read ((enc.Write p n).1.Write ((enc.Write p n).2.drop n) m).2
          (p.length - n)).2
        = (enc.Write p n).2.drop n) := by
  refine ⟨by rw [Write_eq], ?_, ?_⟩
  · intro i hi
    rw [Write_eq, encFrom_getElem?, List.getElem?_eq_getElem hi, List.getD_eq_getElem _ _ hi]
    rfl
  · intro rx hseed hoff hn
    have hb : IsBytes ((encFrom enc.seed enc.writeOffset p).drop n) := by
      intro b hb
      exact encFrom_isBytes enc.seed p enc.writeOffset b (List.mem_of_mem_drop hb)
    rw [Write_eq, Write_eq]
    simp only
    rw [Read_eq rx _ _ (encFrom_isBytes _ _ _) (by omega), hseed, hoff,
      encFrom_congr enc.seed _ ((enc.writeOffset + n) % 2 ^ 64) (enc.writeOffset + n)
        (by omega)]
    exact decFrom_encFrom enc.seed _ hb (enc.writeOffset + n)

/-- Witness of C18: 5 bytes written at offset 0, 3 accepted, the tail of the buffer written
again; the receiver decodes the two resent bytes to the encoded bytes, not to `04 05`. -/
theorem write_encodes_in_place_witness :
    (Encrypter.Read ⟨List.range 64, 3, 0⟩
        ((Encrypter.Write ⟨List.range 64, 0, 0⟩ [1, 2, 3, 4, 5] 3).1.Write
          ((Encrypter.Write ⟨List.range 64, 0, 0⟩ [1, 2, 3, 4, 5] 3).2.drop 3) 2).2
        (([1, 2, 3, 4, 5] : Bytes).length - 3)).2
      = (Encrypter.Write ⟨List.range 64, 0, 0⟩ [1, 2, 3, 4, 5] 3).2.drop 3 ∧
    (Encrypter.Write ⟨List.range 64, 0, 0⟩ [1, 2, 3, 4, 5] 3).2.drop 3 ≠ [4, 5] :=
  ⟨(write_encodes_in_place ⟨List.range 64, 0, 0⟩ [1, 2, 3, 4, 5] 3 2).2.2
      ⟨List.range 64, 3, 0⟩ rfl rfl (by decide), by decide⟩

/-! ## Index safety of the SOCKS parsers -/

theorem bind_panic {α β : Type} (m : Prog α) (f : α → Prog β) (c c1 : Conn) (e : String)
    (h : m c = (.panic e, c1)) : (m >>= f) c = (.panic e, c1) := by
  rw [bind_apply, h]

theorem slice_panic (buf : Bytes) (lo hi : Nat) (c : Conn) (h : ¬ (lo ≤ hi ∧ hi ≤ buf.length)) :
    slice buf lo hi c = (.panic "slice bounds out of range", c) := by
  unfold slice; rw [if_neg h]; rfl

theorem idx_cases {α : Type} (buf : List α) (i : Nat) (c : Conn) :
    (i < buf.length ∧ ∃ a, idx buf i c = (.ok a, c)) ∨
    (buf.length ≤ i ∧ idx buf i c = (.panic "index out of range", c)) := by
  by_cases h : i < buf.length
  · exact Or.inl ⟨h, buf[i], idx_ok buf i _ c (List.getElem?_eq_getElem h)⟩
  · exact Or.inr ⟨by omega, idx_panic buf i c (by omega)⟩

theorem socks4Host_short (buf : Bytes) (c : Conn) (h : buf.length < 8) :
    socks4Host buf c = (.panic "index out of range", c) := by
  unfold socks4Host
  rcases idx_cases buf 4 c with ⟨_, a1, h1⟩ | ⟨_, h1⟩
  · rw [bind_ok _ _ c c a1 h1]
    rcases idx_cases buf 5 c with ⟨_, a2, h2⟩ | ⟨_, h2⟩
    · rw [bind_ok _ _ c c a2 h2]
      rcases idx_cases buf 6 c with ⟨_, a3, h3⟩ | ⟨_, h3⟩
      · rw [bind_ok _ _ c c a3 h3]
        exact bind_panic _ _ c c _ (idx_panic buf 7 c (by omega))
      · exact bind_panic _ _ c c _ h3
    · exact bind_panic _ _ c c _ h2
  · exact bind_panic _ _ c c _ h1

theorem isSOCKS4a_short (buf : Bytes) (c : Conn) (h : buf.length < 8) :
    isSOCKS4a buf c = (.panic "index out of range", c) ∨ isSOCKS4a buf c = (.ok false, c) := by
  unfold isSOCKS4a
  rcases idx_cases buf 4 c with ⟨_, a1, h1⟩ | ⟨_, h1⟩
  · rw [bind_ok _ _ c c a1 h1]
    by_cases z1 : a1 = 0
    · rw [if_pos z1]
      rcases idx_cases buf 5 c with ⟨_, a2, h2⟩ | ⟨_, h2⟩
      · rw [bind_ok _ _ c c a2 h2]
        by_cases z2 : a2 = 0
        · rw [if_pos z2]
          rcases idx_cases buf 6 c with ⟨_, a3, h3⟩ | ⟨_, h3⟩
          · rw [bind_ok _ _ c c a3 h3]
            by_cases z3 : a3 = 0
            · rw [if_pos z3]
              exact Or.inl (bind_panic _ _ c c _ (idx_panic buf 7 c (by omega)))
            · rw [if_neg z3]; exact Or.inr rfl
          · exact Or.inl (bind_panic _ _ c c _ h3)
        · rw [if_neg z2]; exact Or.inr rfl
      · exact Or.inl (bind_panic _ _ c c _ h2)
    · rw [if_neg z1]; exact Or.inr rfl
  · exact Or.inl (bind_panic _ _ c c _ h1)

theorem acceptSOCKS4_short (buf : Bytes) (c : Conn) (h : buf.length < 8) :
    acceptSOCKS4 buf c = (.panic "index out of range", c) := by
  unfold acceptSOCKS4
  rcases idx_cases buf 2 c with ⟨_, p1, h1⟩ | ⟨_, h1⟩
  · rw [bind_ok _ _ c c p1 h1]
    rcases idx_cases buf 3 c with ⟨_, p2, h2⟩ | ⟨_, h2⟩
    · rw [bind_ok _ _ c c p2 h2]
      rcases isSOCKS4a_short buf c h with hs | hs
      · exact bind_panic _ _ c c _ hs
      · rw [bind_ok _ _ c c false hs, if_neg Bool.false_ne_true]
        exact bind_panic _ _ c c _ (socks4Host_short buf c h)
    · exact bind_panic _ _ c c _ h2
  · exact bind_panic _ _ c c _ h1

theorem acceptSOCKS4_long (buf : Bytes) (c : Conn) (h : 8 ≤ buf.length) :
    (∃ ep c1, acceptSOCKS4 buf c = (.ok ep, c1)) ∨ (∃ e c1, acceptSOCKS4 buf c = (.error e, c1)) := by
  obtain ⟨v, cmd, p1, p2, a1, a2, a3, a4, more, rfl⟩ := exists_eight buf h
  have hh : ∃ host, (if decide (a1 = 0 ∧ a2 = 0 ∧ a3 = 0 ∧ 0 < a4) = true
            then socks4aHost (v :: cmd :: p1 :: p2 :: a1 :: a2 :: a3 :: a4 :: more)
            else socks4Host (v :: cmd :: p1 :: p2 :: a1 :: a2 :: a3 :: a4 :: more)) c
          = (.ok host, c) := by
    by_cases ht : a1 = 0 ∧ a2 = 0 ∧ a3 = 0 ∧ 0 < a4
    · rw [decide_eq_true ht, if_pos rfl]; exact socks4aHost_total _ c
    · rw [decide_eq_false ht, if_neg Bool.false_ne_true]
      exact ⟨_, socks4Host_eq _ _ _ _ _ _ _ _ _ _⟩
  obtain ⟨host, hhost⟩ := hh
  rw [acceptSOCKS4_of_host v cmd p1 p2 a1 a2 a3 a4 more c host hhost]
  cases c.writes.headD none with
  | none => exact Or.inl ⟨_, _, rfl⟩
  | some e => exact Or.inr ⟨_, _, rfl⟩

/-- C19. Index safety of the SOCKS4 parser: on a buffer of at least 8 bytes `acceptSOCKS4`
returns an endpoint or an error, no index or slice expression being out of range; on every
shorter buffer it faults with the index-out-of-range panic, leaving the connection
untouched. -/
theorem socks4_index_safety (buf : Bytes) (conn : Conn) :
    (8 ≤ buf.length → ∀ e c1, acceptSOCKS4 buf conn ≠ (.panic e, c1)) ∧
    (buf.length < 8 → acceptSOCKS4 buf conn = (.panic "index out of range", conn)) := by
  constructor
  · intro h e c1 hp
    rcases acceptSOCKS4_long buf conn h with ⟨ep, c2, h2⟩ | ⟨e2, c2, h2⟩
    · rw [h2] at hp; simp at hp
    · rw [h2] at hp; simp at hp
  · exact acceptSOCKS4_short buf conn

/-- Witness of C19: the single byte `04`. -/
theorem socks4_index_safety_witness :
    acceptSOCKS4 [4] ⟨[], [], []⟩ = (.panic "index out of range", ⟨[], [], []⟩) :=
  (socks4_index_safety [4] ⟨[], [], []⟩).2 (by decide)

theorem socks5Request_domain_fault (c : Conn) (r : ReadResult) (rest : List ReadResult)
    (hreads : c.reads = r :: rest) (herr : r.err = none)
    (hatyp : (r.buffer 128).getD 3 0 = 3)
    (hlo : 122 ≤ (r.buffer 128).getD 4 0) (hhi : (r.buffer 128).getD 4 0 < 256) :
    socks5Request c
      = (.panic (if (r.buffer 128).getD 4 0 ≤ 123 then "index out of range"
                 else "slice bounds out of range"), { c with reads := rest }) := by
  unfold socks5Request
  rw [bind_ok _ _ c _ _ (Read_apply 128 c r rest hreads)]
  simp only [herr]
  rw [bind_ok _ _ _ _ _ (idx_buffer r 128 3 _ (by omega))]
  simp only [hatyp, if_true, OfNat.ofNat_ne_one, if_false]
  rw [bind_ok _ _ _ _ _ (idx_buffer r 128 4 _ (by omega))]
  by_cases h123 : (r.buffer 128).getD 4 0 ≤ 123
  · rw [if_pos h123]
    have e1 : (5 + (r.buffer 128).getD 4 0) % 256 = 5 + (r.buffer 128).getD 4 0 := by omega
    have e2 : (5 + (r.buffer 128).getD 4 0 + 1) % 256 = 5 + (r.buffer 128).getD 4 0 + 1 := by
      omega
    rw [e1, e2, bind_ok _ _ _ _ _ (slice_ok _ 5 _ _ (by omega) (by rw [buffer_length]; omega))]
    by_cases h122 : (r.buffer 128).getD 4 0 = 122
    · rw [h122, bind_ok _ _ _ _ _ (idx_buffer r 128 127 _ (by omega))]
      exact bind_panic _ _ _ _ _ (idx_panic _ 128 _ (by rw [buffer_length]))
    · exact bind_panic _ _ _ _ _ (idx_panic _ _ _ (by rw [buffer_length]; omega))
  · rw [if_neg h123]
    exact bind_panic _ _ _ _ _ (slice_panic _ 5 _ _ (by rw [buffer_length]; omega))

theorem socks5Request_domain_safe (c : Conn) (r : ReadResult) (rest : List ReadResult)
    (hreads : c.reads = r :: rest) (herr : r.err = none)
    (hatyp : (r.buffer 128).getD 3 0 = 3) (hL : (r.buffer 128).getD 4 0 ≤ 121) :
    (∃ ep c1, socks5Request c = (.ok ep, c1)) ∨ (∃ e c1, socks5Request c = (.error e, c1)) := by
  rw [socks5Request_domain c r rest hreads herr hatyp hL]
  cases c.writes.headD none with
  | none => exact Or.inl ⟨_, _, rfl⟩
  | some e => exact Or.inr ⟨_, _, rfl⟩

/-- C20. Index safety of the SOCKS5 domain branch: in the request phase with ATYP 3 and
length byte `L = buf[4]`, the parser returns an endpoint or an error, no slice or index
expression being out of range, when `L ≤ 121`; for every `L` in 122..255 it faults with a
panic (index out of range for 122 and 123, slice bounds out of range from 124 on, where
`5+L` exceeds 128 or wraps below 5). -/
theorem socks5_domain_index_safety (conn : Conn) (r : ReadResult) (rest : List ReadResult)
    (hreads : conn.reads = r :: rest) (herr : r.err = none)
    (hatyp : (r.buffer 128).getD 3 0 = 3) (hbyte : (r.buffer 128).getD 4 0 < 256) :
    ((r.buffer 128).getD 4 0 ≤ 121 → ∀ e c1, socks5Request conn ≠ (.panic e, c1)) ∧
    (122 ≤ (r.buffer 128).getD 4 0 →
      socks5Request conn
        = (.panic (if (r.buffer 128).getD 4 0 ≤ 123 then "index out of range"
                   else "slice bounds out of range"), { conn with reads := rest })) := by
  constructor
  · intro hL e c1 hp
    rcases socks5Request_domain_safe conn r rest hreads herr hatyp hL with
      ⟨ep, c2, h2⟩ | ⟨e2, c2, h2⟩
    · rw [h2] at hp; simp at hp
    · rw [h2] at hp; simp at hp
  · intro hlo
    exact socks5Request_domain_fault conn r rest hreads herr hatyp hlo hbyte

/-- Witness of C20: the request `05 01 00 03 7A` announces a domain of 122 bytes. -/
theorem socks5_domain_index_safety_witness :
    socks5Request ⟨[⟨[5, 1, 0, 3, 122], [], none⟩], [], []⟩
      = (.panic "index out of range", ⟨[], [], []⟩) :=
  ((socks5_domain_index_safety ⟨[⟨[5, 1, 0, 3, 122], [], none⟩], [], []⟩
      ⟨[5, 1, 0, 3, 122], [], none⟩ [] rfl rfl (by decide) (by decide)).2 (by decide)).trans
    (by decide)

/-! ## Strings: `strings.Split`, `strings.Index`, `strconv.Atoi` and `%d` -/

theorem stringsSplitGo_skip (sep : Bytes) (rest cur : Bytes) :
    ∀ t : Bytes, stringsSplitGo sep (t ++ rest) t.length cur = stringsSplitGo sep rest 0 cur := by
  intro t
  induction t with
  | nil => rfl
  | cons a t ih => simpa [stringsSplitGo] using ih

theorem isPrefixOf_cons_ne (s0 c : Nat) (st r : Bytes) (h : c ≠ s0) :
    (s0 :: st).isPrefixOf (c :: r) = false := by
  simp [List.isPrefixOf, h.symm]

theorem stringsSplitGo_piece (s0 : Nat) (st rest : Bytes) :
    ∀ (a cur : Bytes), (∀ c ∈ a, c ≠ s0) →
      stringsSplitGo (s0 :: st) (a ++ rest) 0 cur
        = stringsSplitGo (s0 :: st) rest 0 (cur ++ a) := by
  intro a
  induction a with
  | nil => intro cur _; simp
  | cons c a ih =>
    intro cur h
    have hc : c ≠ s0 := h c (List.mem_cons_self _ _)
    rw [List.cons_append, stringsSplitGo, isPrefixOf_cons_ne s0 c st _ hc]
    simp only [Bool.false_eq_true, if_false]
    rw [ih (cur ++ [c]) (fun x hx => h x (List.mem_cons_of_mem _ hx))]
    simp

theorem stringsSplitGo_sep (s0 : Nat) (st rest cur : Bytes) :
    stringsSplitGo (s0 :: st) (s0 :: st ++ rest) 0 cur
      = cur :: stringsSplitGo (s0 :: st) rest 0 [] := by
  have hp : (s0 :: st).isPrefixOf (s0 :: (st ++ rest)) = true := by
    simp [List.isPrefixOf]
  rw [List.cons_append, stringsSplitGo, hp]
  simp only [if_true, List.length_cons, Nat.add_sub_cancel]
  rw [stringsSplitGo_skip]

theorem stringsSplitGo_nil (sep cur : Bytes) : stringsSplitGo sep [] 0 cur = [cur] := rfl

theorem stringsSplitGo_first (sep : Bytes) (rest : Bytes) :
    ∀ (pre cur : Bytes),
      (∀ i, i < pre.length → sep.isPrefixOf ((pre ++ rest).drop i) = false) →
      stringsSplitGo sep (pre ++ rest) 0 cur = stringsSplitGo sep rest 0 (cur ++ pre) := by
  intro pre
  induction pre with
  | nil => intro cur _; simp
  | cons c a ih =>
    intro cur h
    have h0 : sep.isPrefixOf (c :: (a ++ rest)) = false := by
      have := h 0 (by simp)
      simpa using this
    rw [List.cons_append, stringsSplitGo, h0]
    simp only [Bool.false_eq_true, if_false]
    rw [ih (cur ++ [c]) (fun i hi => by
      have := h (i + 1) (by simp; omega)
      simpa using this)]
    simp

theorem stringsIndexFrom_first (sep : Bytes) :
    ∀ (s : Bytes) (k n : Nat), stringsIndexFrom sep s k = ((k + n : Nat) : Int) →
      ∀ i, i < n → sep.isPrefixOf (s.drop i) = false := by
  intro s
  induction s with
  | nil =>
    intro k n h i hi
    unfold stringsIndexFrom at h
    by_cases hs : sep = []
    · rw [if_pos hs] at h
      have : k = k + n := by exact_mod_cast h
      omega
    · cases sep with
      | nil => exact absurd rfl hs
      | cons a l => simp [List.isPrefixOf]
  | cons c r ih =>
    intro k n h i hi
    unfold stringsIndexFrom at h
    by_cases hp : sep.isPrefixOf (c :: r) = true
    · rw [if_pos hp] at h
      have : k = k + n := by exact_mod_cast h
      omega
    · rw [if_neg hp] at h
      cases i with
      | zero => exact Bool.eq_false_iff.mpr hp
      | succ j =>
        cases n with
        | zero => omega
        | succ m =>
          have h2 : stringsIndexFrom sep r (k + 1) = (((k + 1) + m : Nat) : Int) := by
            rw [h]; congr 1; omega
          simpa using ih (k + 1) m h2 j (by omega)

theorem stringsIndexFrom_piece (s0 : Nat) (st rest : Bytes) :
    ∀ (a : Bytes) (k : Nat), (∀ c ∈ a, c ≠ s0) →
      stringsIndexFrom (s0 :: st) (a ++ rest) k
        = stringsIndexFrom (s0 :: st) rest (k + a.length) := by
  intro a
  induction a with
  | nil => intro k _; simp
  | cons c a ih =>
    intro k h
    have hc : c ≠ s0 := h c (List.mem_cons_self _ _)
    rw [List.cons_append, stringsIndexFrom, isPrefixOf_cons_ne s0 c st _ hc]
    simp only [Bool.false_eq_true, if_false]
    rw [ih (k + 1) (fun x hx => h x (List.mem_cons_of_mem _ hx))]
    simp only [List.length_cons]
    congr 1
    omega

theorem stringsIndex_none (h : Bytes) (hh : ∀ c ∈ h, c ≠ 58) :
    stringsIndex h (str ":") = -1 := by
  have := stringsIndexFrom_piece 58 [] [] h 0 hh
  simp only [List.append_nil] at this
  unfold stringsIndex
  rw [show str ":" = [58] by decide, this]
  rfl

theorem stringsIndex_colon (a t : Bytes) (ha : ∀ c ∈ a, c ≠ 58) :
    stringsIndex (a ++ 58 :: t) (str ":") = (a.length : Int) := by
  unfold stringsIndex
  rw [show str ":" = [58] by decide, stringsIndexFrom_piece 58 [] (58 :: t) a 0 ha]
  simp [stringsIndexFrom, List.isPrefixOf]

theorem digitChar_toNat (k : Nat) (h : k < 10) : (Nat.digitChar k).toNat = 48 + k := by
  interval_cases k <;> rfl

theorem parseDigits_toDigitsCore :
    ∀ (fuel n : Nat) (ds : List Char), n < fuel →
      parseDigits ((Nat.toDigitsCore 10 fuel n ds).map Char.toNat) 0
        = parseDigits (ds.map Char.toNat) n := by
  intro fuel
  induction fuel with
  | zero => intro n ds h; omega
  | succ fuel ih =>
    intro n ds h
    have hd : (Nat.digitChar (n % 10)).toNat = 48 + n % 10 := digitChar_toNat _ (by omega)
    have hr : 48 ≤ 48 + n % 10 ∧ 48 + n % 10 ≤ 57 := by omega
    unfold Nat.toDigitsCore
    by_cases h0 : n / 10 = 0
    · simp only [h0, if_true, List.map_cons, parseDigits, hd, hr, and_self]
      congr 1
      omega
    · simp only [h0, if_false]
      rw [ih (n / 10) _ (by omega)]
      simp only [List.map_cons, parseDigits, hd, hr, and_self, if_true]
      congr 1
      omega

theorem parseDigits_itoa (n : Nat) :
    parseDigits ((Nat.toDigits 10 n).map Char.toNat) 0 = some n := by
  unfold Nat.toDigits
  rw [parseDigits_toDigitsCore (n + 1) n [] (by omega)]
  rfl

theorem parseDigits_digits :
    ∀ (s : Bytes) (acc v : Nat), parseDigits s acc = some v → ∀ c ∈ s, 48 ≤ c ∧ c ≤ 57 := by
  intro s
  induction s with
  | nil => intro _ _ _ c hc; simp at hc
  | cons a r ih =>
    intro acc v h c hc
    unfold parseDigits at h
    by_cases ha : 48 ≤ a ∧ a ≤ 57
    · rw [if_pos ha] at h
      rcases List.mem_cons.mp hc with rfl | hr
      · exact ha
      · exact ih _ _ h c hr
    · rw [if_neg ha] at h; simp at h

theorem toDigitsCore_ne_nil :
    ∀ (fuel n : Nat) (ds : List Char), ds ≠ [] → Nat.toDigitsCore 10 fuel n ds ≠ [] := by
  intro fuel
  induction fuel with
  | zero => intro n ds h; simpa [Nat.toDigitsCore] using h
  | succ fuel ih =>
    intro n ds _
    unfold Nat.toDigitsCore
    by_cases h0 : n / 10 = 0
    · simp [h0]
    · simp only [h0, if_false]
      exact ih _ _ (by simp)

theorem toDigits_ne_nil (n : Nat) : Nat.toDigits 10 n ≠ [] := by
  unfold Nat.toDigits Nat.toDigitsCore
  by_cases h0 : n / 10 = 0
  · simp [h0]
  · simp only [h0, if_false]
    exact toDigitsCore_ne_nil _ _ _ (by simp)

theorem itoa_digits (n : Nat) : ∀ c ∈ itoa (n : Int), 48 ≤ c ∧ c ≤ 57 := by
  have hi : itoa (n : Int) = (Nat.toDigits 10 n).map Char.toNat := by
    unfold itoa
    rw [if_neg (by omega)]
    rfl
  rw [hi]
  exact parseDigits_digits _ 0 n (parseDigits_itoa n)

theorem itoa_ne_nil (n : Nat) : itoa (n : Int) ≠ [] := by
  have hi : itoa (n : Int) = (Nat.toDigits 10 n).map Char.toNat := by
    unfold itoa
    rw [if_neg (by omega)]
    rfl
  rw [hi]
  simpa using toDigits_ne_nil n

theorem Atoi_itoa (n : Nat) (h : n < 2 ^ 63) : Atoi (itoa (n : Int)) = some (n : Int) := by
  have hi : itoa (n : Int) = (Nat.toDigits 10 n).map Char.toNat := by
    unfold itoa
    rw [if_neg (by omega)]
    rfl
  have hne := itoa_ne_nil n
  have hdig := itoa_digits n
  obtain ⟨c, r, hcr⟩ : ∃ c r, itoa (n : Int) = c :: r := by
    cases hl : itoa (n : Int) with
    | nil => exact absurd hl hne
    | cons c r => exact ⟨c, r, rfl⟩
  have hc := hdig c (by rw [hcr]; exact List.mem_cons_self _ _)
  have h45 : ¬ (c = 45) := by omega
  have h43 : ¬ (c = 43) := by omega
  have hp : parseDigits (c :: r) 0 = some n := by rw [← hcr, hi]; exact parseDigits_itoa n
  unfold Atoi
  rw [hcr]
  simp only [List.head?_cons, Option.some.injEq, h45, h43, or_self, if_false, hp]
  have h2 : n < 9223372036854775808 := by norm_num at h; exact h
  simp
  omega

/-! ## `ParseEndpoint` and `Endpoint.String` -/

theorem stringsSplit_colon (host right : Bytes)
    (hhost : ∀ c ∈ host, c ≠ 58) (hright : ∀ c ∈ right, c ≠ 58) :
    stringsSplit (host ++ str ":" ++ right) (str ":") = [host, right] := by
  unfold stringsSplit
  rw [show str ":" = [58] by decide, List.append_assoc,
    stringsSplitGo_piece 58 [] _ host [] hhost, List.nil_append,
    stringsSplitGo_sep 58 [] right host]
  have := stringsSplitGo_piece 58 [] [] right [] hright
  rw [List.append_nil] at this
  rw [this]
  rfl

theorem stringsSplit_remainder (host right : Bytes)
    (hhost : ∀ c ∈ host, c ≠ 58) (hright : ∀ c ∈ right, c ≠ 58)
    (hsl : (str "//").isPrefixOf right = false) (cur : Bytes) :
    stringsSplitGo (str "://") (host ++ str ":" ++ right) 0 cur
      = [cur ++ (host ++ str ":" ++ right)] := by
  have h2 : ([58, 47, 47] : Bytes).isPrefixOf (58 :: right) = false := by
    have : ([47, 47] : Bytes).isPrefixOf right = false := hsl
    simpa [List.isPrefixOf] using this
  rw [show str "://" = [58, 47, 47] by decide, show str ":" = [58] by decide, List.append_assoc,
    stringsSplitGo_piece 58 [47, 47] _ host cur hhost]
  show stringsSplitGo [58, 47, 47] (58 :: right) 0 (cur ++ host) = _
  rw [stringsSplitGo, h2]
  simp only [Bool.false_eq_true, if_false]
  have := stringsSplitGo_piece 58 [47, 47] [] right (cur ++ host ++ [58]) hright
  rw [List.append_nil] at this
  rw [this]
  simp [stringsSplitGo]

theorem stringsSplit_scheme (pre host right : Bytes)
    (hfirst : stringsIndex (pre ++ str "://" ++ host ++ str ":" ++ right) (str "://")
      = (pre.length : Int))
    (hhost : ∀ c ∈ host, c ≠ 58) (hright : ∀ c ∈ right, c ≠ 58)
    (hsl : (str "//").isPrefixOf right = false) :
    stringsSplit (pre ++ str "://" ++ host ++ str ":" ++ right) (str "://")
      = [pre, host ++ str ":" ++ right] := by
  have hf := stringsIndexFrom_first (str "://")
    (pre ++ str "://" ++ host ++ str ":" ++ right) 0 pre.length
    (by unfold stringsIndex at hfirst; rw [hfirst]; simp)
  have e : pre ++ str "://" ++ host ++ str ":" ++ right
      = pre ++ (str "://" ++ (host ++ str ":" ++ right)) := by simp
  unfold stringsSplit
  rw [e] at hf ⊢
  rw [stringsSplitGo_first (str "://") _ pre [] hf, List.nil_append]
  rw [show str "://" ++ (host ++ str ":" ++ right)
      = 58 :: [47, 47] ++ (host ++ str ":" ++ right) by rfl]
  rw [show str "://" = [58, 47, 47] by decide, stringsSplitGo_sep 58 [47, 47]]
  have := stringsSplit_remainder host right hhost hright hsl []
  rw [show str "://" = [58, 47, 47] by decide, List.nil_append] at this
  rw [this]

theorem ParseEndpoint_of_split (s pre host right : Bytes)
    (h1 : stringsSplit s (str "://") = [pre, host ++ str ":" ++ right])
    (h2 : stringsSplit (host ++ str ":" ++ right) (str ":") = [host, right]) :
    ParseEndpoint s =
      match Atoi right with
      | some p =>
        some { Schema := if pre.length = 0 then str "none" else pre, Host := host, Port := p,
               req := none }
      | none => none := by
  unfold ParseEndpoint
  simp only [h1, List.length_cons, List.length_nil, List.headD_cons, List.getD_cons_succ,
    List.getD_cons_zero, h2, if_true]

theorem stringsIndex_scheme (pre rest : Bytes) (hpre : ∀ c ∈ pre, c ≠ 58) :
    stringsIndex (pre ++ str "://" ++ rest) (str "://") = (pre.length : Int) := by
  unfold stringsIndex
  rw [show str "://" = [58, 47, 47] by decide, List.append_assoc,
    stringsIndexFrom_piece 58 [47, 47] _ pre 0 hpre]
  simp [stringsIndexFrom, List.isPrefixOf]

/-- C11. Endpoint round-trip: for an endpoint whose schema is "tcp", "socks5" or "http",
whose host contains no `:` and whose port is in 0..65535, `ParseEndpoint(ep.String())`
returns the endpoint with the same schema, host and port (and no buffered request). -/
theorem endpoint_round_trip (ep : Endpoint)
    (hs : ep.Schema = str "tcp" ∨ ep.Schema = str "socks5" ∨ ep.Schema = str "http")
    (hh : ∀ c ∈ ep.Host, c ≠ 58) (hp0 : 0 ≤ ep.Port) (hp1 : ep.Port ≤ 65535) :
    ParseEndpoint ep.String
      = some { Schema := ep.Schema, Host := ep.Host, Port := ep.Port, req := none } := by
  obtain ⟨n, hn⟩ : ∃ n : Nat, ep.Port = (n : Int) := ⟨ep.Port.toNat, by omega⟩
  have hn2 : n < 2 ^ 63 := by
    have : n ≤ 65535 := by omega
    have : (65535 : Nat) < 2 ^ 63 := by norm_num
    omega
  have hnone : ep.Schema ≠ str "none" := by
    rcases hs with h | h | h <;> rw [h] <;> decide
  have hpre : ∀ c ∈ ep.Schema, c ≠ 58 := by
    rcases hs with h | h | h <;> rw [h] <;> decide
  have hlen : ¬ ep.Schema.length = 0 := by
    rcases hs with h | h | h <;> rw [h] <;> decide
  have hdig := itoa_digits n
  have hright : ∀ c ∈ itoa (n : Int), c ≠ 58 := fun c hc => by
    have := hdig c hc; omega
  have hsl : (str "//").isPrefixOf (itoa (n : Int)) = false := by
    cases hl : itoa (n : Int) with
    | nil => rfl
    | cons c r =>
      have := hdig c (by rw [hl]; exact List.mem_cons_self _ _)
      have hc : ¬ (47 = c) := by omega
      simp [str, List.isPrefixOf, hc]
  have hstr : ep.String = ep.Schema ++ str "://" ++ ep.Host ++ str ":" ++ itoa (n : Int) := by
    unfold Endpoint.String
    rw [if_neg hnone, hn]
  rw [hstr, ParseEndpoint_of_split _ ep.Schema ep.Host (itoa (n : Int))
    (stringsSplit_scheme _ _ _
      (by rw [List.append_assoc, List.append_assoc, stringsIndex_scheme _ _ hpre])
      hh hright hsl)
    (stringsSplit_colon _ _ hh hright), Atoi_itoa n hn2]
  simp only [hlen, if_false, hn]

/-- Witness of C11: `socks5://10.0.0.1:1080`. -/
theorem endpoint_round_trip_witness :
    ParseEndpoint (Endpoint.String ⟨str "socks5", str "10.0.0.1", 1080, none⟩)
      = some ⟨str "socks5", str "10.0.0.1", 1080, none⟩ :=
  endpoint_round_trip ⟨str "socks5", str "10.0.0.1", 1080, none⟩
    (by decide) (by decide) (by decide) (by decide)

/-- C12, as the code has it. When the remainder after the first `://` holds exactly one `:`
and no further `://` (the part after the `:` does not start with `//`), `ParseEndpoint`
fails if the part after the `:` does not parse as a decimal integer, and otherwise returns
the endpoint with the part before the `:` as host and that integer as port. -/
theorem parseEndpoint_port_rule (pre host right : Bytes)
    (hfirst : stringsIndex (pre ++ str "://" ++ host ++ str ":" ++ right) (str "://")
      = (pre.length : Int))
    (hhost : ∀ c ∈ host, c ≠ 58) (hright : ∀ c ∈ right, c ≠ 58)
    (hsl : (str "//").isPrefixOf right = false) :
    (Atoi right = none →
      ParseEndpoint (pre ++ str "://" ++ host ++ str ":" ++ right) = none) ∧
    (∀ p, Atoi right = some p →
      ParseEndpoint (pre ++ str "://" ++ host ++ str ":" ++ right)
        = some { Schema := if pre.length = 0 then str "none" else pre, Host := host,
                 Port := p, req := none }) := by
  have h := ParseEndpoint_of_split _ pre host right
    (stringsSplit_scheme pre host right hfirst hhost hright hsl)
    (stringsSplit_colon host right hhost hright)
  constructor
  · intro ha; rw [h, ha]
  · intro p ha; rw [h, ha]

/-- Witness of C12 as amended: `socks5://10.0.0.1:abc` yields no endpoint. -/
theorem parseEndpoint_port_rule_witness :
    ParseEndpoint (str "socks5" ++ str "://" ++ str "10.0.0.1" ++ str ":" ++ str "abc") = none :=
  (parseEndpoint_port_rule (str "socks5") (str "10.0.0.1") (str "abc")
    (by decide) (by decide) (by decide) (by decide)).1 (by decide)

/-- C12 fails as stated: the remainder of `tcp://a:b:c` contains `:` and what follows its
first `:` is not a decimal integer, yet an endpoint is returned, with host `a` and port 0;
the same for `tcp://a:80:90`. -/
theorem parseEndpoint_port_rule_fails :
    ParseEndpoint (str "tcp://a:b:c") = some ⟨str "tcp", str "a", 0, none⟩ ∧
    ParseEndpoint (str "tcp://a:80:90") = some ⟨str "tcp", str "a", 0, none⟩ := by
  constructor <;> decide

theorem ParseEndpoint_schema (s : Bytes) (ep : Endpoint) (h : ParseEndpoint s = some ep) :
    ep.Schema = (if ((stringsSplit s (str "://")).headD []).length = 0 then str "none"
                 else (stringsSplit s (str "://")).headD []) := by
  unfold ParseEndpoint at h
  simp only at h
  split at h
  · split at h
    · split at h
      · simp only [Option.some.injEq] at h; rw [← h]
      · simp at h
    · simp only [Option.some.injEq] at h; rw [← h]
  · simp only [Option.some.injEq] at h; rw [← h]

/-- C13. The "none" sentinel: `String()` of any endpoint with schema "none" is `none://`,
whatever its host and port; `ParseEndpoint("none://")` is the endpoint ("none", "", 0); and
an endpoint parsed from an input with an empty schema (the empty string, or a string that
starts with `://`) has schema "none", as for `""` and `://h:80`. -/
theorem none_sentinel :
    (∀ ep : Endpoint, ep.Schema = str "none" → ep.String = str "none://") ∧
    ParseEndpoint (str "none://") = some ⟨str "none", [], 0, none⟩ ∧
    (∀ (rem : Bytes) (ep : Endpoint),
      ParseEndpoint (str "://" ++ rem) = some ep → ep.Schema = str "none") ∧
    ParseEndpoint [] = some ⟨str "none", [], 0, none⟩ ∧
    ParseEndpoint (str "://h:80") = some ⟨str "none", str "h", 80, none⟩ := by
  refine ⟨?_, by decide, ?_, by decide, by decide⟩
  · intro ep h
    unfold Endpoint.String
    rw [if_pos h]
  · intro rem ep h
    have hs := ParseEndpoint_schema _ ep h
    have hsplit : (stringsSplit (str "://" ++ rem) (str "://")).headD [] = [] := by
      unfold stringsSplit
      rw [show str "://" = [58, 47, 47] by decide, stringsSplitGo_sep 58 [47, 47] rem []]
      rfl
    rw [hsplit] at hs
    simpa using hs

/-- Witness of C13: an endpoint with schema "none" and a host and port of its own. -/
theorem none_sentinel_witness :
    Endpoint.String ⟨str "none", str "example.com", 8080, none⟩ = str "none://" :=
  none_sentinel.1 ⟨str "none", str "example.com", 8080, none⟩ rfl

/-! ## HTTP: the destination taken from the Host value -/

/-- C17, as the code has it. After `http.ReadRequest` has returned a request with Host value
`h` (and the `200 Connection Established` reply has been written for CONNECT): if `h`
contains no `:` the endpoint is ("tcp", `h`, 80); if `h` contains exactly one `:`, not as
its first byte, the host is the part before it and the port the part after it parsed as a
decimal integer, the call failing when it does not parse. -/
theorem http_destination (ReadRequest : Bytes → Prog Request) (buf : Bytes) (conn c1 : Conn)
    (req : Request) (hreq : ReadRequest buf conn = (.ok req, c1)) :
    ((∀ c ∈ req.Host, c ≠ 58) →
      acceptHTTP ReadRequest buf conn
        = (.ok { Schema := str "tcp", Host := req.Host, Port := 80, req := some req },
            afterConnect req c1)) ∧
    (∀ a b : Bytes, req.Host = a ++ str ":" ++ b → a ≠ [] →
      (∀ c ∈ a, c ≠ 58) → (∀ c ∈ b, c ≠ 58) →
      (∀ p, Atoi b = some p →
        acceptHTTP ReadRequest buf conn
          = (.ok { Schema := str "tcp", Host := a, Port := p, req := some req },
              afterConnect req c1)) ∧
      (Atoi b = none →
        ∃ e, acceptHTTP ReadRequest buf conn = (.error e, afterConnect req c1))) := by
  have hrun : acceptHTTP ReadRequest buf conn =
      (if stringsIndex req.Host (str ":") > 0 then
        (do
          let host ← idx (stringsSplit req.Host (str ":")) 0
          let ps ← idx (stringsSplit req.Host (str ":")) 1
          match Atoi ps with
            | none => fail "strconv.Atoi: parsing failed"
            | some port =>
              pure { Schema := str "tcp", Host := host, Port := port, req := some req } :
          Prog Endpoint)
       else pure { Schema := str "tcp", Host := req.Host, Port := 80, req := some req })
        (afterConnect req c1) := by
    unfold acceptHTTP afterConnect
    rw [bind_ok _ _ conn c1 req hreq]
    by_cases hm : req.Method = str "CONNECT"
    · rw [if_pos hm, if_pos hm, bind_ok _ _ c1 _ _ (Write_apply _ c1)]
      rfl
    · rw [if_neg hm, if_neg hm]
      rfl
  constructor
  · intro hno
    rw [hrun, stringsIndex_none req.Host hno, if_neg (by decide)]
    rfl
  · intro a b hab hne ha hb
    have hidx : stringsIndex req.Host (str ":") > 0 := by
      rw [hab, show str ":" = [58] by decide, List.append_assoc]
      rw [show [58] ++ b = 58 :: b by rfl]
      have := stringsIndex_colon a b ha
      rw [show str ":" = [58] by decide] at this
      rw [this]
      have : 0 < a.length := List.length_pos.mpr hne
      exact_mod_cast this
    have hsplit : stringsSplit req.Host (str ":") = [a, b] := by
      rw [hab]; exact stringsSplit_colon a b ha hb
    have hrun2 : acceptHTTP ReadRequest buf conn =
        (match Atoi b with
          | none => fail "strconv.Atoi: parsing failed"
          | some port =>
            (pure { Schema := str "tcp", Host := a, Port := port, req := some req } :
              Prog Endpoint)) (afterConnect req c1) := by
      rw [hrun, if_pos hidx, hsplit,
        bind_ok _ _ _ _ a (idx_ok _ 0 a _ (by simp)),
        bind_ok _ _ _ _ b (idx_ok _ 1 b _ (by simp))]
    constructor
    · intro p hp
      rw [hrun2, hp]; rfl
    · intro hp
      rw [hrun2, hp]; exact ⟨_, rfl⟩

/-- Witness of C17 as amended: a CONNECT request with Host `example.com:443`. -/
theorem http_destination_witness :
    acceptHTTP (fun _ => pure ⟨str "CONNECT", str "example.com" ++ str ":" ++ str "443"⟩)
        (str "CONNECT") ⟨[], [], []⟩
      = (.ok { Schema := str "tcp", Host := str "example.com", Port := 443,
               req := some ⟨str "CONNECT", str "example.com" ++ str ":" ++ str "443"⟩ },
          ⟨[], [],
            [str "HTTP/1.1 200 Connection Established\r\nConnection: close\r\n\r\n"]⟩) :=
  (((http_destination
      (fun _ => pure ⟨str "CONNECT", str "example.com" ++ str ":" ++ str "443"⟩)
      (str "CONNECT") ⟨[], [], []⟩ ⟨[], [], []⟩
      ⟨str "CONNECT", str "example.com" ++ str ":" ++ str "443"⟩ rfl).2
      (str "example.com") (str "443") rfl (by decide) (by decide) (by decide)).1 443
      (by decide)).trans (by decide)

/-- C17 fails as stated: for the Host value `:8080`, which contains `:`, the endpoint host is
`:8080` itself and the port 80, not the empty part before the `:` and port 8080; and for
`a:80:90` the port is 80, the piece between the first two `:`, with no failure. -/
theorem http_destination_fails :
    acceptHTTP (fun _ => pure ⟨str "GET", str ":8080"⟩) (str "GET") ⟨[], [], []⟩
      = (.ok { Schema := str "tcp", Host := str ":8080", Port := 80,
               req := some ⟨str "GET", str ":8080"⟩ }, ⟨[], [], []⟩) ∧
    acceptHTTP (fun _ => pure ⟨str "GET", str "a:80:90"⟩) (str "GET") ⟨[], [], []⟩
      = (.ok { Schema := str "tcp", Host := str "a", Port := 80,
               req := some ⟨str "GET", str "a:80:90"⟩ }, ⟨[], [], []⟩) := by
  constructor <;> decide

end QProxy
